import Mathlib

/-!
Verification of the STS deterministic event-replay core
(`sts/replay_event.py` and `sts/topology/graph.py`) against its
natural-language specification.

Python runtime values handled by the event codec (JSON scalars, lists,
dicts, tuples, and the opaque `OFFingerprint` / `DPFingerprint` objects
from `sts.fingerprints.messages`) are shallowly embedded as the inductive
type `PyVal`.  Pure methods become Lean functions; methods that can raise
(`assert`, `KeyError`, `ValueError`, `IndexError`, `TypeError`) return
`Option` or `Except`.
-/

/-- Embedding of the Python runtime values handled by the event codec:
JSON-expressible values (None, bool, int, str, list, dict) plus tuples and
the opaque fingerprint objects `OFFingerprint` / `DPFingerprint`
(external classes from `sts.fingerprints.messages`; each is represented
by the dict that its `to_dict` method returns). -/
inductive PyVal where
  | pnone : PyVal
  | pbool (b : Bool) : PyVal
  | pint (n : Int) : PyVal
  | pstr (s : String) : PyVal
  | ptuple (xs : List PyVal) : PyVal
  | plist (xs : List PyVal) : PyVal
  | pdict (kvs : List (String × PyVal)) : PyVal
  | pofFp (d : PyVal) : PyVal
  | pdpFp (d : PyVal) : PyVal

mutual

/-- Structural equality of `PyVal`, i.e. the Python `==` on these values. -/
def pyBeq : PyVal → PyVal → Bool
  | .pnone, .pnone => true
  | .pbool a, .pbool b => a == b
  | .pint a, .pint b => a == b
  | .pstr a, .pstr b => a == b
  | .ptuple xs, .ptuple ys => pyBeqList xs ys
  | .plist xs, .plist ys => pyBeqList xs ys
  | .pdict xs, .pdict ys => pyBeqKVs xs ys
  | .pofFp a, .pofFp b => pyBeq a b
  | .pdpFp a, .pdpFp b => pyBeq a b
  | _, _ => false

/-- Elementwise `pyBeq` on lists. -/
def pyBeqList : List PyVal → List PyVal → Bool
  | [], [] => true
  | x :: xs, y :: ys => pyBeq x y && pyBeqList xs ys
  | _, _ => false

/-- Elementwise `pyBeq` on key-value lists. -/
def pyBeqKVs : List (String × PyVal) → List (String × PyVal) → Bool
  | [], [] => true
  | (k1, v1) :: xs, (k2, v2) :: ys => k1 == k2 && pyBeq v1 v2 && pyBeqKVs xs ys
  | _, _ => false

end

/-- Dict lookup (`json_hash[k]` and `k in json_hash`): the value bound to
the key, if any. -/
def alookup (kvs : List (String × PyVal)) (k : String) : Option PyVal :=
  match kvs with
  | [] => none
  | (k2, v) :: rest => if k2 = k then some v else alookup rest k

/-- Field access on a decoded JSON object; `none` for a non-dict or a
missing field (a Python `KeyError`, or a failed `assert_fields_exist`). -/
def pget (j : PyVal) (k : String) : Option PyVal :=
  match j with
  | .pdict kvs => alookup kvs k
  | _ => none

mutual

/-- Models `json.dumps` followed by the JSON parse of the written line:
tuples become lists, the structure is otherwise copied, and a
non-serialisable object (an `OFFingerprint`/`DPFingerprint` instance that
was not converted by `dictify_fingerprint`) makes the dump raise
(`none`). -/
def jsonNormalize : PyVal → Option PyVal
  | .pnone => some .pnone
  | .pbool b => some (.pbool b)
  | .pint n => some (.pint n)
  | .pstr s => some (.pstr s)
  | .ptuple xs => (jsonNormalizeList xs).map .plist
  | .plist xs => (jsonNormalizeList xs).map .plist
  | .pdict kvs => (jsonNormalizeKVs kvs).map .pdict
  | .pofFp _ => none
  | .pdpFp _ => none

/-- `jsonNormalize` over the elements of a list. -/
def jsonNormalizeList : List PyVal → Option (List PyVal)
  | [] => some []
  | x :: xs => do
    let y ← jsonNormalize x
    let ys ← jsonNormalizeList xs
    pure (y :: ys)

/-- `jsonNormalize` over the values of a dict. -/
def jsonNormalizeKVs : List (String × PyVal) → Option (List (String × PyVal))
  | [] => some []
  | (k, v) :: rest => do
    let v2 ← jsonNormalize v
    let rest2 ← jsonNormalizeKVs rest
    pure ((k, v2) :: rest2)

end

/-- Decimal digit accumulation for `int(...)` (`none` on a non-digit). -/
def decDigitsLoop : List Char → Nat → Option Nat
  | [], acc => some acc
  | c :: rest, acc =>
    if c.isDigit then decDigitsLoop rest (acc * 10 + (c.toNat - 48)) else none

/-- Python `int(...)` applied to a character sequence: an optional minus
sign followed by at least one decimal digit (`ValueError`, hence `none`,
otherwise). -/
def pyIntOfChars : List Char → Option Int
  | [] => none
  | '-' :: rest =>
    match rest with
    | [] => none
    | cs => (decDigitsLoop cs 0).map (fun n => -(n : Int))
  | cs => (decDigitsLoop cs 0).map (fun n => (n : Int))

/-- Models Python `int(x)` on a decoded JSON value (`ValueError` and
`TypeError` are `none`). -/
def pyInt : PyVal → Option Int
  | .pint n => some n
  | .pbool b => some (if b then 1 else 0)
  | .pstr s => pyIntOfChars s.data
  | _ => none

/-- Models Python `tuple(x)`: lists and tuples become tuples, a string
becomes the tuple of its one-character strings, a dict the tuple of its
keys; other values raise `TypeError` (`none`). -/
def pyTupleOf : PyVal → Option PyVal
  | .ptuple xs => some (.ptuple xs)
  | .plist xs => some (.ptuple xs)
  | .pstr s => some (.ptuple (s.data.map (fun c => .pstr (String.mk [c]))))
  | .pdict kvs => some (.ptuple (kvs.map (fun kv => .pstr kv.1)))
  | _ => none

/-- Replaces a `Fingerprint` object (an `OFFingerprint` or `DPFingerprint`)
by its `to_dict()` form, and leaves every other value unchanged: the loop
body of `dictify_fingerprint`. -/
def fingerprintElem : PyVal → PyVal
  | .pofFp d => d
  | .pdpFp d => d
  | x => x

/-- The module-level helper `dictify_fingerprint`: `list(fingerprint)`
(a `TypeError`, hence `none`, on non-iterables), replace each
`Fingerprint` element by `to_dict()`, and return the tuple. -/
def dictify_fingerprint : PyVal → Option PyVal
  | .ptuple xs => some (.ptuple (xs.map fingerprintElem))
  | .plist xs => some (.ptuple (xs.map fingerprintElem))
  | .pstr s => some (.ptuple (s.data.map (fun c => .pstr (String.mk [c]))))
  | .pdict kvs => some (.ptuple (kvs.map (fun kv => .pstr kv.1)))
  | _ => none

/-- Modelled from the spec: `sts.syncproto.base.SyncTime` (not under
`src/`), the wall-clock timestamp `[seconds, microseconds]` carried by
every event. -/
structure SyncTime where
  seconds : Int
  microSeconds : Int

/-- The JSON form of a `SyncTime` (a namedtuple, hence dumped as an
array). -/
def eventTimeJson (t : SyncTime) : PyVal :=
  .ptuple [.pint t.seconds, .pint t.microSeconds]

/-- Reads a `SyncTime` from a decoded JSON value:
`SyncTime(json_hash[0], json_hash[1])` (an `IndexError`, hence `none`,
when there are fewer than two elements). -/
def asSyncTime : PyVal → Option SyncTime
  | .plist (.pint s :: .pint u :: _) => some ⟨s, u⟩
  | .ptuple (.pint s :: .pint u :: _) => some ⟨s, u⟩
  | _ => none

/-- The numeric id of an event label: `int(label[1:])` from
`Event.__init__` and `Event.label_id` (`none` models the `ValueError` on
a label whose tail is not an integer literal). -/
def labelIdOf (l : String) : Option Int :=
  pyIntOfChars (l.data.drop 1)

/-- The fields every event serialises from `Event.__init__`
(`label`, `logical_round`, `event_time`, `dependent_labels`, `prunable`,
`timed_out`), as they appear in `self.__dict__` inside `Event.to_json`. -/
def baseDictFields (label : String) (logical_round : Int) (event_time : SyncTime)
    (dependent_labels : List String) (prunable timed_out : Bool) :
    List (String × PyVal) :=
  [("label", .pstr label),
   ("logical_round", .pint logical_round),
   ("event_time", eventTimeJson event_time),
   ("dependent_labels", .plist (dependent_labels.map .pstr)),
   ("prunable", .pbool prunable),
   ("timed_out", .pbool timed_out)]

/-- The helper `extract_label_time`: asserts that `label`, `event_time`
and `logical_round` exist and reads them. -/
def extract_label_time (j : PyVal) : Option (String × SyncTime × Int) := do
  let lbl ← pget j "label"
  let et ← pget j "event_time"
  let lr ← pget j "logical_round"
  match lbl, lr with
  | .pstr l, .pint r => do
    let t ← asSyncTime et
    pure (l, t, r)
  | _, _ => none

/-- The helper `extract_base_fields` of the internal events: like
`extract_label_time` plus the optional `timeout_disallowed` (defaulting
to false). -/
def extract_base_fields (j : PyVal) : Option (String × SyncTime × Int × Bool) := do
  let (l, t, r) ← extract_label_time j
  let td ← match pget j "timeout_disallowed" with
    | none => some false
    | some (.pbool b) => some b
    | some _ => none
  pure (l, t, r, td)

/-- The event class `SwitchFailure` (an `InputEvent`): crashes the switch
`dpid`. -/
structure SwitchFailure where
  label : String
  logical_round : Int
  event_time : SyncTime
  dependent_labels : List String
  prunable : Bool
  timed_out : Bool
  dpid : Int

/-- Fingerprint of `SwitchFailure`: `(class name, dpid)`. -/
def SwitchFailure.fingerprint (e : SwitchFailure) : PyVal :=
  .ptuple [.pstr "SwitchFailure", .pint e.dpid]

/-- `Event.to_json` specialised to `SwitchFailure`: `self.__dict__` plus
the class tag and the dictified fingerprint. -/
def SwitchFailure.to_json (e : SwitchFailure) : Option PyVal := do
  let fp ← dictify_fingerprint e.fingerprint
  pure (.pdict (baseDictFields e.label e.logical_round e.event_time
      e.dependent_labels e.prunable e.timed_out ++
    [("dpid", .pint e.dpid),
     ("class", .pstr "SwitchFailure"),
     ("fingerprint", fp)]))

/-- `SwitchFailure.from_json`: reads label/time/round, asserts `dpid`
exists and converts it with `int`, and runs the constructor (which parses
the numeric label id). -/
def SwitchFailure.from_json (j : PyVal) : Option SwitchFailure := do
  let (label, event_time, logical_round) ← extract_label_time j
  let dpidv ← pget j "dpid"
  let dpid ← pyInt dpidv
  let _ ← labelIdOf label
  pure { label := label, logical_round := logical_round,
         event_time := event_time, dependent_labels := [],
         prunable := true, timed_out := false, dpid := dpid }

/-- The event class `LinkFailure` (an `InputEvent`): cuts the link
between two switch ports. -/
structure LinkFailure where
  label : String
  logical_round : Int
  event_time : SyncTime
  dependent_labels : List String
  prunable : Bool
  timed_out : Bool
  start_dpid : Int
  start_port_no : Int
  end_dpid : Int
  end_port_no : Int

/-- Fingerprint of `LinkFailure`:
`(class name, start dpid, start port_no, end dpid, end port_no)`. -/
def LinkFailure.fingerprint (e : LinkFailure) : PyVal :=
  .ptuple [.pstr "LinkFailure", .pint e.start_dpid, .pint e.start_port_no,
           .pint e.end_dpid, .pint e.end_port_no]

/-- `Event.to_json` specialised to `LinkFailure`. -/
def LinkFailure.to_json (e : LinkFailure) : Option PyVal := do
  let fp ← dictify_fingerprint e.fingerprint
  pure (.pdict (baseDictFields e.label e.logical_round e.event_time
      e.dependent_labels e.prunable e.timed_out ++
    [("start_dpid", .pint e.start_dpid),
     ("start_port_no", .pint e.start_port_no),
     ("end_dpid", .pint e.end_dpid),
     ("end_port_no", .pint e.end_port_no),
     ("class", .pstr "LinkFailure"),
     ("fingerprint", fp)]))

/-- `LinkFailure.from_json`: reads label/time/round, asserts the four
endpoint fields exist and converts each with `int`, and runs the
constructor. -/
def LinkFailure.from_json (j : PyVal) : Option LinkFailure := do
  let (label, event_time, logical_round) ← extract_label_time j
  let sdv ← pget j "start_dpid"
  let spv ← pget j "start_port_no"
  let edv ← pget j "end_dpid"
  let epv ← pget j "end_port_no"
  let start_dpid ← pyInt sdv
  let start_port_no ← pyInt spv
  let end_dpid ← pyInt edv
  let end_port_no ← pyInt epv
  let _ ← labelIdOf label
  pure { label := label, logical_round := logical_round,
         event_time := event_time, dependent_labels := [],
         prunable := true, timed_out := false,
         start_dpid := start_dpid, start_port_no := start_port_no,
         end_dpid := end_dpid, end_port_no := end_port_no }

/-- The event class `LinkRecovery` (an `InputEvent`): repairs a failed
link between two switch ports. -/
structure LinkRecovery where
  label : String
  logical_round : Int
  event_time : SyncTime
  dependent_labels : List String
  prunable : Bool
  timed_out : Bool
  start_dpid : Int
  start_port_no : Int
  end_dpid : Int
  end_port_no : Int

/-- Fingerprint of `LinkRecovery`:
`(class name, start dpid, start port, end dpid, end port)`. -/
def LinkRecovery.fingerprint (e : LinkRecovery) : PyVal :=
  .ptuple [.pstr "LinkRecovery", .pint e.start_dpid, .pint e.start_port_no,
           .pint e.end_dpid, .pint e.end_port_no]

/-- The event class `PingEvent` (an `InputEvent`): a TestON-specific ping
between two hosts.  Its constructor default for `prunable` is `False`. -/
structure PingEvent where
  label : String
  logical_round : Int
  event_time : SyncTime
  dependent_labels : List String
  prunable : Bool
  timed_out : Bool
  src_host_id : String
  dst_host_id : String

/-- The `prunable` default of the `PingEvent` constructor
(`prunable=False`). -/
def pingEventDefaultPrunable : Bool := false

/-- Fingerprint of `PingEvent`: `(class name, src_host_id, dst_host_id)`. -/
def PingEvent.fingerprint (e : PingEvent) : PyVal :=
  .ptuple [.pstr "PingEvent", .pstr e.src_host_id, .pstr e.dst_host_id]

/-- The overridden `PingEvent.to_json`: `self.__dict__` plus the class
tag, the two host ids again, and the raw fingerprint tuple. -/
def PingEvent.to_json (e : PingEvent) : Option PyVal :=
  some (.pdict (baseDictFields e.label e.logical_round e.event_time
      e.dependent_labels e.prunable e.timed_out ++
    [("src_host_id", .pstr e.src_host_id),
     ("dst_host_id", .pstr e.dst_host_id),
     ("class", .pstr "PingEvent"),
     ("fingerprint", e.fingerprint)]))

/-- `PingEvent.from_json`: reads label/time/round, defaults a missing
`prunable` to `True`, and indexes `src_host_id` / `dst_host_id`
(a `KeyError`, hence `none`, when absent). -/
def PingEvent.from_json (j : PyVal) : Option PingEvent := do
  let (label, event_time, logical_round) ← extract_label_time j
  let prunable ← match pget j "prunable" with
    | none => some true
    | some (.pbool b) => some b
    | some _ => none
  let srcv ← pget j "src_host_id"
  let dstv ← pget j "dst_host_id"
  match srcv, dstv with
  | .pstr src_host_id, .pstr dst_host_id => do
    let _ ← labelIdOf label
    pure { label := label, logical_round := logical_round,
           event_time := event_time, dependent_labels := [],
           prunable := prunable, timed_out := false,
           src_host_id := src_host_id, dst_host_id := dst_host_id }
  | _, _ => none

/-- Modelled from the spec: `sts.dataplane_traces.trace.DataplaneEvent`
(not under `src/`), the object encapsulating a packet and its access
link; its JSON form is the dict
`("interface": HostInterface.to_json(), "packet": base64 contents)`,
which we carry wholesale. -/
structure DataplaneEvent where
  payload : PyVal

/-- Modelled from the spec: `DataplaneEvent.to_json` returns the JSON
form. -/
def DataplaneEvent.to_json (d : DataplaneEvent) : PyVal := d.payload

/-- Modelled from the spec: `DataplaneEvent.from_json` rebuilds the
object from its JSON form. -/
def DataplaneEvent.from_json (j : PyVal) : Option DataplaneEvent :=
  some ⟨j⟩

/-- The event class `TrafficInjection` (an `InputEvent`): injects a
dataplane packet at a host access link.  Its constructor default for
`prunable` is `True`. -/
structure TrafficInjection where
  label : String
  logical_round : Int
  event_time : SyncTime
  dependent_labels : List String
  prunable : Bool
  timed_out : Bool
  dp_event : Option DataplaneEvent
  host_id : Option Int

/-- The `prunable` default of the `TrafficInjection` constructor
(`prunable=True`). -/
def trafficInjectionDefaultPrunable : Bool := true

/-- JSON form of an optional host id (`None` dumps as `null`). -/
def hostIdJson : Option Int → PyVal
  | none => .pnone
  | some n => .pint n

/-- The overridden `TrafficInjection.to_json`: `self.__dict__` with
`dp_event` replaced by `dp_event.to_json()` (an `AttributeError`, hence
`none`, when `dp_event` is `None`), the class tag, and the fingerprint
`(class name, dp_event.to_json(), host_id)`. -/
def TrafficInjection.to_json (e : TrafficInjection) : Option PyVal := do
  let d ← e.dp_event
  let dj := d.to_json
  pure (.pdict (baseDictFields e.label e.logical_round e.event_time
      e.dependent_labels e.prunable e.timed_out ++
    [("dp_event", dj),
     ("host_id", hostIdJson e.host_id),
     ("class", .pstr "TrafficInjection"),
     ("fingerprint", .ptuple [.pstr "TrafficInjection", dj, hostIdJson e.host_id])]))

/-- `TrafficInjection.from_json`: reads label/time/round; `prunable`
defaults to `True`, `dp_event` and `host_id` to `None`, when the field is
missing. -/
def TrafficInjection.from_json (j : PyVal) : Option TrafficInjection := do
  let (label, event_time, logical_round) ← extract_label_time j
  let prunable ← match pget j "prunable" with
    | none => some true
    | some (.pbool b) => some b
    | some _ => none
  let dp_event ← match pget j "dp_event" with
    | none => some none
    | some v => (DataplaneEvent.from_json v).map some
  let host_id ← match pget j "host_id" with
    | none => some none
    | some (.pint n) => some (some n)
    | some .pnone => some none
    | some _ => none
  let _ ← labelIdOf label
  pure { label := label, logical_round := logical_round,
         event_time := event_time, dependent_labels := [],
         prunable := prunable, timed_out := false,
         dp_event := dp_event, host_id := host_id }

/-- The event class `ControlMessageSend` (an `InternalEvent`, subclass of
`ControlMessageBase`): the scheduler allowed a switch to send an OpenFlow
message.  The stored `_fingerprint` is the normalised tuple
`(class name, OFFingerprint, dpid, controller id)`. -/
structure ControlMessageSend where
  label : String
  logical_round : Int
  event_time : SyncTime
  dependent_labels : List String
  prunable : Bool
  timed_out : Bool
  timeout_disallowed : Bool
  dpid : Int
  controller_id : String
  b64_packet : String
  _fingerprint : PyVal
  ignore_whitelisted_packets : Bool
  pass_through_sends : Bool

/-- The fingerprint normalisation of `ControlMessageBase.__init__`: a
list becomes `(fp[0], OFFingerprint(fp[1]), fp[2], tuple(fp[3]))` (an
`IndexError`, hence `none`, when shorter than four elements); afterwards
anything that is not a tuple is wrapped as
`(class name, OFFingerprint(fp), dpid, controller_id)`. -/
def controlMessageFingerprint (cls : String) (dpid : Int)
    (controller_id : String) (fp : PyVal) : Option PyVal := do
  let step1 ← match fp with
    | .plist xs => do
      let e0 ← xs.get? 0
      let e1 ← xs.get? 1
      let e2 ← xs.get? 2
      let e3 ← xs.get? 3
      let e3t ← pyTupleOf e3
      pure (.ptuple [e0, .pofFp e1, e2, e3t])
    | x => pure x
  match step1 with
  | .ptuple xs => pure (.ptuple xs)
  | x => pure (.ptuple [.pstr cls, .pofFp x, .pint dpid, .pstr controller_id])

/-- `ControlMessageBase.to_json` specialised to `ControlMessageSend`:
`self.__dict__` without the memoised packet and without `_fingerprint`,
plus the class tag and the dictified fingerprint. -/
def ControlMessageSend.to_json (e : ControlMessageSend) : Option PyVal := do
  let fp ← dictify_fingerprint e._fingerprint
  pure (.pdict (baseDictFields e.label e.logical_round e.event_time
      e.dependent_labels e.prunable e.timed_out ++
    [("timeout_disallowed", .pbool e.timeout_disallowed),
     ("dpid", .pint e.dpid),
     ("controller_id", .pstr e.controller_id),
     ("b64_packet", .pstr e.b64_packet),
     ("ignore_whitelisted_packets", .pbool e.ignore_whitelisted_packets),
     ("pass_through_sends", .pbool e.pass_through_sends),
     ("class", .pstr "ControlMessageSend"),
     ("fingerprint", fp)]))

/-- `ControlMessageSend.from_json`: reads the base fields plus `dpid`,
`controller_id`, `fingerprint` and the optional `b64_packet`, then runs
the constructor (label id parse and fingerprint normalisation). -/
def ControlMessageSend.from_json (j : PyVal) : Option ControlMessageSend := do
  let (label, event_time, logical_round, timeout_disallowed) ← extract_base_fields j
  let dpidv ← pget j "dpid"
  let cidv ← pget j "controller_id"
  let fpv ← pget j "fingerprint"
  match dpidv, cidv with
  | .pint dpid, .pstr controller_id => do
    let b64_packet ← match pget j "b64_packet" with
      | none => some ""
      | some (.pstr s) => some s
      | some _ => none
    let _ ← labelIdOf label
    let fpn ← controlMessageFingerprint "ControlMessageSend" dpid controller_id fpv
    pure { label := label, logical_round := logical_round,
           event_time := event_time, dependent_labels := [],
           prunable := false, timed_out := false,
           timeout_disallowed := timeout_disallowed,
           dpid := dpid, controller_id := controller_id,
           b64_packet := b64_packet, _fingerprint := fpn,
           ignore_whitelisted_packets := false,
           pass_through_sends := false }
  | _, _ => none

/-- The event class `ControllerStateChange` (an `InternalEvent`): a
visible controller state change observed over the sync protocol. -/
structure ControllerStateChange where
  label : String
  logical_round : Int
  event_time : SyncTime
  dependent_labels : List String
  prunable : Bool
  timed_out : Bool
  timeout_disallowed : Bool
  controller_id : String
  _fingerprint : PyVal
  name : String
  value : PyVal

/-- The fingerprint normalisation of `ControllerStateChange.__init__`: a
bare string becomes `(class name, fingerprint)` and a list becomes a
tuple. -/
def cscNormalizeFingerprint (fp : PyVal) : PyVal :=
  match fp with
  | .pstr s => .ptuple [.pstr "ControllerStateChange", .pstr s]
  | .plist xs => .ptuple xs
  | x => x

/-- The value normalisation of `ControllerStateChange.__init__`
(and of `PendingStateChange.__new__`): a list becomes a tuple. -/
def pyTupleIfList : PyVal → PyVal
  | .plist xs => .ptuple xs
  | x => x

/-- The `ControllerStateChange.fingerprint` property:
`tuple(list(self._fingerprint) + [self.controller_id])` (a `TypeError`,
hence `none`, on a non-iterable `_fingerprint`). -/
def ControllerStateChange.fingerprintProp (e : ControllerStateChange) :
    Option PyVal :=
  match e._fingerprint with
  | .ptuple xs => some (.ptuple (xs ++ [.pstr e.controller_id]))
  | .plist xs => some (.ptuple (xs ++ [.pstr e.controller_id]))
  | .pstr s => some (.ptuple (s.data.map (fun c => .pstr (String.mk [c])) ++
      [.pstr e.controller_id]))
  | .pdict kvs => some (.ptuple (kvs.map (fun kv => .pstr kv.1) ++
      [.pstr e.controller_id]))
  | _ => none

/-- `Event.to_json` specialised to `ControllerStateChange`:
`self.__dict__` without `_fingerprint`, plus the class tag and the
dictified `fingerprint` property. -/
def ControllerStateChange.to_json (e : ControllerStateChange) : Option PyVal := do
  let fpp ← e.fingerprintProp
  let fp ← dictify_fingerprint fpp
  pure (.pdict (baseDictFields e.label e.logical_round e.event_time
      e.dependent_labels e.prunable e.timed_out ++
    [("timeout_disallowed", .pbool e.timeout_disallowed),
     ("controller_id", .pstr e.controller_id),
     ("name", .pstr e.name),
     ("value", e.value),
     ("class", .pstr "ControllerStateChange"),
     ("fingerprint", fp)]))

/-- `ControllerStateChange.from_json`: reads the base fields plus
`controller_id`, `fingerprint`, `name`, `value`, then runs the
constructor (label id parse and the two normalisations). -/
def ControllerStateChange.from_json (j : PyVal) :
    Option ControllerStateChange := do
  let (label, event_time, logical_round, timeout_disallowed) ← extract_base_fields j
  let cidv ← pget j "controller_id"
  let fpv ← pget j "fingerprint"
  let namev ← pget j "name"
  let valuev ← pget j "value"
  match cidv, namev with
  | .pstr controller_id, .pstr name => do
    let _ ← labelIdOf label
    pure { label := label, logical_round := logical_round,
           event_time := event_time, dependent_labels := [],
           prunable := false, timed_out := false,
           timeout_disallowed := timeout_disallowed,
           controller_id := controller_id,
           _fingerprint := cscNormalizeFingerprint fpv,
           name := name, value := pyTupleIfList valuev }
  | _, _ => none

/-- The event class `InvariantViolation` (a `SpecialEvent`): logs the
violation strings of an invariant check; never executed by the
replayer. -/
structure InvariantViolation where
  label : String
  logical_round : Int
  event_time : SyncTime
  dependent_labels : List String
  prunable : Bool
  timed_out : Bool
  violations : List String
  persistent : Bool

/-- The elementwise string conversion `[str(v) for v in violations]`
(restricted to string entries, the documented format). -/
def violationStrings : List PyVal → Option (List String)
  | [] => some []
  | .pstr s :: rest => (violationStrings rest).map (fun l => s :: l)
  | _ => none

/-- The violations normalisation of `InvariantViolation.__init__`: an
empty argument raises `ValueError` (`none`); a bare string is wrapped in
a singleton list. -/
def invariantViolationInitViolations : PyVal → Option (List String)
  | .pstr s => if s.length = 0 then none else some [s]
  | .plist xs =>
    if xs.length = 0 then none
    else violationStrings xs
  | _ => none

/-- `Event.to_json` specialised to `InvariantViolation` (whose
fingerprint is the inherited default `(class name,)`). -/
def InvariantViolation.to_json (e : InvariantViolation) : Option PyVal := do
  let fp ← dictify_fingerprint (.ptuple [.pstr "InvariantViolation"])
  pure (.pdict (baseDictFields e.label e.logical_round e.event_time
      e.dependent_labels e.prunable e.timed_out ++
    [("violations", .plist (e.violations.map .pstr)),
     ("persistent", .pbool e.persistent),
     ("class", .pstr "InvariantViolation"),
     ("fingerprint", fp)]))

/-- `InvariantViolation.from_json`: reads label/time/round, asserts
`violations` exists, defaults a missing `persistent` to `True`, and runs
the constructor. -/
def InvariantViolation.from_json (j : PyVal) : Option InvariantViolation := do
  let (label, event_time, logical_round) ← extract_label_time j
  let violationsv ← pget j "violations"
  let persistent ← match pget j "persistent" with
    | none => some true
    | some (.pbool b) => some b
    | some _ => none
  let violations ← invariantViolationInitViolations violationsv
  let _ ← labelIdOf label
  pure { label := label, logical_round := logical_round,
         event_time := event_time, dependent_labels := [],
         prunable := true, timed_out := false,
         violations := violations, persistent := persistent }

/-- The sum of the concrete event classes embedded here (the classes the
round-trip law is checked on). -/
inductive AnyEvent where
  | switchFailure (e : SwitchFailure) : AnyEvent
  | linkFailure (e : LinkFailure) : AnyEvent
  | pingEvent (e : PingEvent) : AnyEvent
  | trafficInjection (e : TrafficInjection) : AnyEvent
  | controlMessageSend (e : ControlMessageSend) : AnyEvent
  | controllerStateChange (e : ControllerStateChange) : AnyEvent
  | invariantViolation (e : InvariantViolation) : AnyEvent

/-- The concrete class of an event (`self.__class__.__name__`). -/
def AnyEvent.className : AnyEvent → String
  | .switchFailure _ => "SwitchFailure"
  | .linkFailure _ => "LinkFailure"
  | .pingEvent _ => "PingEvent"
  | .trafficInjection _ => "TrafficInjection"
  | .controlMessageSend _ => "ControlMessageSend"
  | .controllerStateChange _ => "ControllerStateChange"
  | .invariantViolation _ => "InvariantViolation"

/-- The label of an event. -/
def AnyEvent.label : AnyEvent → String
  | .switchFailure e => e.label
  | .linkFailure e => e.label
  | .pingEvent e => e.label
  | .trafficInjection e => e.label
  | .controlMessageSend e => e.label
  | .controllerStateChange e => e.label
  | .invariantViolation e => e.label

/-- `Event.__eq__`: `False` when the concrete classes differ, otherwise
label comparison. -/
def eventEq (a b : AnyEvent) : Bool :=
  if a.className = b.className then a.label == b.label else false

/-- A concrete deterministic stand-in for the opaque Python string hash:
any fixed function of the string. -/
def pyStringHash (s : String) : Nat :=
  s.data.foldl (fun h c => h * 31 + c.toNat) 7

/-- `Event.__hash__`: the hash of the label alone
(`self.label.__hash__()`). -/
def eventHash (e : AnyEvent) : Nat :=
  pyStringHash e.label

/-- Encode an event with `to_json`, write and parse the JSON line, and
decode it with the `from_json` of the same concrete class (decode
dispatches on the `class` tag). -/
def encodeDecodeAny : AnyEvent → Option AnyEvent
  | .switchFailure e => do
    let js ← e.to_json
    let parsed ← jsonNormalize js
    let e2 ← SwitchFailure.from_json parsed
    pure (.switchFailure e2)
  | .linkFailure e => do
    let js ← e.to_json
    let parsed ← jsonNormalize js
    let e2 ← LinkFailure.from_json parsed
    pure (.linkFailure e2)
  | .pingEvent e => do
    let js ← e.to_json
    let parsed ← jsonNormalize js
    let e2 ← PingEvent.from_json parsed
    pure (.pingEvent e2)
  | .trafficInjection e => do
    let js ← e.to_json
    let parsed ← jsonNormalize js
    let e2 ← TrafficInjection.from_json parsed
    pure (.trafficInjection e2)
  | .controlMessageSend e => do
    let js ← e.to_json
    let parsed ← jsonNormalize js
    let e2 ← ControlMessageSend.from_json parsed
    pure (.controlMessageSend e2)
  | .controllerStateChange e => do
    let js ← e.to_json
    let parsed ← jsonNormalize js
    let e2 ← ControllerStateChange.from_json parsed
    pure (.controllerStateChange e2)
  | .invariantViolation e => do
    let js ← e.to_json
    let parsed ← jsonNormalize js
    let e2 ← InvariantViolation.from_json parsed
    pure (.invariantViolation e2)

/-- Shape of the `_fingerprint` a validly constructed
`ControlMessageBase` stores: the normalised four-tuple with a
serialisable `OFFingerprint` dict. -/
def cmsFpValid : PyVal → Bool
  | .ptuple [.pstr _, .pofFp d, .pint _, .pstr _] => (jsonNormalize d).isSome
  | _ => false

/-- Shape of the `_fingerprint` a validly constructed
`ControllerStateChange` stores: a tuple with serialisable elements. -/
def cscFpValid : PyVal → Bool
  | .ptuple xs => (jsonNormalizeList (xs.map fingerprintElem)).isSome
  | _ => false

/-- A valid instance of an event class: its label has a numeric id (as
every constructed event does), and the fields the class serialises are
present and serialisable (`dp_event` for `TrafficInjection`, the stored
fingerprint for the control-plane events, a nonempty violation list for
`InvariantViolation`). -/
def eventValid : AnyEvent → Bool
  | .switchFailure e => (labelIdOf e.label).isSome
  | .linkFailure e => (labelIdOf e.label).isSome
  | .pingEvent e => (labelIdOf e.label).isSome
  | .trafficInjection e =>
    (labelIdOf e.label).isSome &&
    (match e.dp_event with
     | some d => (jsonNormalize d.payload).isSome
     | none => false)
  | .controlMessageSend e =>
    (labelIdOf e.label).isSome && cmsFpValid e._fingerprint
  | .controllerStateChange e =>
    (labelIdOf e.label).isSome && cscFpValid e._fingerprint &&
    (jsonNormalize e.value).isSome
  | .invariantViolation e =>
    (labelIdOf e.label).isSome && !e.violations.isEmpty

/-- The process-wide label-generation state of `Event`:
`_label_gen = itertools.count(1)` (the next counter value) and
`_all_label_ids` (every numeric label id recorded so far). -/
structure LabelState where
  counter : Int
  used : Finset Int

/-- `Event._label_gen.next()`: returns the counter and increments it. -/
def labelGenNext (st : LabelState) : Int × LabelState :=
  (st.counter, ⟨st.counter + 1, st.used⟩)

/-- The skip loop of `Event.__init__`
(`while label_id in _all_label_ids: label_id = _label_gen.next()`),
with explicit fuel; `used.card + 1` fuel always suffices since the
candidate ids are pairwise distinct. -/
def labelGenSkip (fuel : Nat) (labelId : Int) (counter : Int)
    (used : Finset Int) : Int × Int :=
  match fuel with
  | 0 => (labelId, counter)
  | f + 1 =>
    if labelId ∈ used then labelGenSkip f counter (counter + 1) used
    else (labelId, counter)

/-- The label-assignment part of `Event.__init__`: with no explicit
label, generate `prefix + str(id)` skipping ids in `_all_label_ids`; with
an explicit label, accept it as given.  Either way the numeric id
(`int(label[1:])`, a `ValueError` if unparsable) is added to
`_all_label_ids`.  No other exception is raised on this path. -/
def eventInitLabel (pfx : String) (labelArg : Option String)
    (st : LabelState) : Except String (String × LabelState) :=
  match labelArg with
  | none =>
    let (id0, st1) := labelGenNext st
    let (lid, counter2) := labelGenSkip (st.used.card + 1) id0 st1.counter st.used
    let label := pfx ++ toString lid
    match labelIdOf label with
    | none => .error "ValueError: invalid literal for int()"
    | some i => .ok (label, ⟨counter2, insert i st.used⟩)
  | some label =>
    match labelIdOf label with
    | none => .error "ValueError: invalid literal for int()"
    | some i => .ok (label, ⟨st.counter, insert i st.used⟩)

mutual

/-- A concrete deterministic stand-in for the opaque Python hash on the
values a fingerprint can contain: any fixed function of the value. -/
def pyHashVal : PyVal → Nat
  | .pnone => 0
  | .pbool b => if b then 1 else 2
  | .pint n => 3 + n.natAbs * 9
  | .pstr s => 5 + pyStringHash s * 9
  | .ptuple xs => 6 + pyHashList xs * 9
  | .plist xs => 7 + pyHashList xs * 9
  | .pdict kvs => 8 + pyHashKVs kvs * 9
  | .pofFp d => 4 + pyHashVal d * 9
  | .pdpFp d => 9 + pyHashVal d * 9

/-- Hash fold over list elements. -/
def pyHashList : List PyVal → Nat
  | [] => 11
  | x :: xs => pyHashVal x + pyHashList xs * 31

/-- Hash fold over dict entries. -/
def pyHashKVs : List (String × PyVal) → Nat
  | [] => 13
  | (k, v) :: rest => pyStringHash k + pyHashVal v * 17 + pyHashKVs rest * 31

end

/-- The namedtuple `PendingStateChange`
`(controller_id, event_time, fingerprint, name, value)` identifying an
observation from a controller sync channel. -/
structure PendingStateChange where
  controller_id : String
  event_time : PyVal
  fingerprint : PyVal
  name : PyVal
  value : PyVal

/-- `PendingStateChange.__new__`: lists among `event_time`,
`fingerprint` and `value` become tuples. -/
def PendingStateChange.new (controller_id : String)
    (event_time fingerprint name value : PyVal) : PendingStateChange :=
  ⟨controller_id, pyTupleIfList event_time, pyTupleIfList fingerprint,
   name, pyTupleIfList value⟩

/-- `PendingStateChange._get_regex`: on a tuple fingerprint, skip the
class name and return element 1 (an `IndexError`, hence `none`, on a
tuple shorter than two); otherwise the fingerprint itself. -/
def PendingStateChange._get_regex (p : PendingStateChange) : Option PyVal :=
  match p.fingerprint with
  | .ptuple xs => xs.get? 1
  | f => some f

/-- `PendingStateChange.__eq__`: same type, equal `_get_regex()` values
and equal controller ids; `event_time`, `name` and `value` are not
consulted. -/
def pscEq (p1 p2 : PendingStateChange) : Option Bool := do
  let r1 ← p1._get_regex
  let r2 ← p2._get_regex
  pure (pyBeq r1 r2 && p1.controller_id == p2.controller_id)

/-- `PendingStateChange.__hash__`:
`self._get_regex().__hash__() + self.controller_id.__hash__()`. -/
def pscHash (p : PendingStateChange) : Option Nat :=
  (p._get_regex).map (fun r => pyHashVal r + pyStringHash p.controller_id)

/-- Modelled from the spec: the static registry
`config.invariant_checks.name_to_invariant_check` (not under `src/`).
The spec mandates a static registry of named checks and names
`InvariantChecker.check_connectivity` (the decode-time default) and
`InvariantChecker.check_correspondence` (the constructor default). -/
def name_to_invariant_check : List String :=
  ["InvariantChecker.check_connectivity",
   "InvariantChecker.check_correspondence"]

/-- The `invariant_check_name` argument of `CheckInvariants.__init__`:
either a check name string, or (for backwards compatibility) a
non-string marshalled function object. -/
inductive InvariantCheckArg where
  | byName (s : String) : InvariantCheckArg
  | legacyObj (v : PyVal) : InvariantCheckArg

/-- The event class `CheckInvariants` (an `InputEvent`): pauses the
simulation and runs the named invariant check. -/
structure CheckInvariants where
  label : String
  logical_round : Int
  event_time : SyncTime
  legacy_invariant_check : Bool
  invariant_check_name : Option String
  invariant_check : InvariantCheckArg

/-- The error message raised for an unknown invariant check name. -/
def unknownInvariantMsg (s : String) : String :=
  "Unknown invariant check " ++ s ++
  ".\nInvariant check name must be defined in config.invariant_checks"

/-- `CheckInvariants.__init__`: a non-string argument takes the legacy
path; a string must be a key of the static registry, otherwise
`ValueError` naming the unknown check is raised. -/
def CheckInvariants.init (label : String) (logical_round : Int)
    (event_time : SyncTime) (invariant_check_name : InvariantCheckArg) :
    Except String CheckInvariants :=
  match labelIdOf label with
  | none => .error "ValueError: invalid literal for int()"
  | some _ =>
    match invariant_check_name with
    | .legacyObj v =>
      .ok { label := label, logical_round := logical_round,
            event_time := event_time, legacy_invariant_check := true,
            invariant_check_name := none, invariant_check := .legacyObj v }
    | .byName s =>
      if s ∈ name_to_invariant_check then
        .ok { label := label, logical_round := logical_round,
              event_time := event_time, legacy_invariant_check := false,
              invariant_check_name := some s, invariant_check := .byName s }
      else
        .error (unknownInvariantMsg s)

/-- `CheckInvariants.from_json`: reads label/time/round; the check name
defaults to `InvariantChecker.check_connectivity`, an `invariant_name`
field overrides it (a non-string value falls to the legacy path, as does
a marshalled `invariant_check` blob), and the constructor is run. -/
def CheckInvariants.from_json (j : PyVal) : Except String CheckInvariants :=
  match extract_label_time j with
  | none => .error "MalformedEvent: missing label, event_time or logical_round"
  | some (label, event_time, logical_round) =>
    CheckInvariants.init label logical_round event_time
      (match pget j "invariant_name" with
       | some (.pstr s) => .byName s
       | some v => .legacyObj v
       | none =>
         match pget j "invariant_check" with
         | some v => .legacyObj v
         | none => .byName "InvariantChecker.check_connectivity")

/-- Vertex ids of the topology graph: host/switch/port names are strings,
and an interface whose name is empty falls back to its integer
`port_no`. -/
inductive NodeId where
  | str (s : String) : NodeId
  | num (n : Int) : NodeId
deriving DecidableEq

/-- Python `str(...)` on a node id. -/
def nodeIdStr : NodeId → String
  | .str s => s
  | .num n => toString n

/-- A port or host-interface object as the graph reads it (only the
`name` and `port_no` attributes are accessed). -/
structure NetPort where
  name : String
  port_no : Int
deriving DecidableEq

/-- A host object as the graph reads it (`name` and `interfaces`). -/
structure Host where
  name : String
  interfaces : List NetPort
deriving DecidableEq

/-- A switch object as the graph reads it (`name` and the
`port_no -> port` dict). -/
structure Switch where
  name : String
  ports : List (Int × NetPort)
deriving DecidableEq

/-- The object stored under the `obj` attribute of a vertex. -/
inductive NObj where
  | host (h : Host) : NObj
  | iface (i : NetPort) : NObj
  | switch (s : Switch) : NObj
  | port (p : NetPort) : NObj
deriving DecidableEq

/-- A link object as `_get_link_nodes` reads it (the
`start_node/start_port/end_node/end_port` scheme; the
`node1/port1/node2/port2` scheme binds the same four values, so it is
represented by the same record).  Only the `name` of the node objects
and the `name`/`port_no` of the port objects are accessed. -/
structure Link where
  start_node : String
  start_port : NetPort
  end_node : String
  end_port : NetPort
deriving DecidableEq

/-- Vertex attribute dict: the `ntype` and `obj` keys (either may be
absent, e.g. on nodes auto-created by `Graph.add_edge`). -/
structure NAttrs where
  ntype : Option String
  obj : Option NObj
deriving DecidableEq

/-- Edge attribute dict: the `etype`, `obj` and `bidir` keys. -/
structure EAttrs where
  etype : Option String
  obj : Option Link
  bidir : Option Bool
deriving DecidableEq

/-- Association-list lookup (Python dict indexing). -/
def alGet {α β : Type} [DecidableEq α] : List (α × β) → α → Option β
  | [], _ => none
  | (k2, v) :: rest, k => if k2 = k then some v else alGet rest k

/-- Association-list key removal (Python `del d[k]`). -/
def alErase {α β : Type} [DecidableEq α] : List (α × β) → α → List (α × β)
  | [], _ => []
  | (k2, v) :: rest, k =>
    if k2 = k then alErase rest k else (k2, v) :: alErase rest k

/-- Association-list update (Python `d[k] = v`). -/
def alSet {α β : Type} [DecidableEq α] (l : List (α × β)) (k : α) (v : β) :
    List (α × β) :=
  alErase l k ++ [(k, v)]

/-- The generic `Graph` of `sts.topology.graph`: `_nodes` is a dict of
`node_id -> attrs` and `_edges` an adjacency dict of dicts. -/
structure PGraph where
  nodes : List (NodeId × NAttrs)
  edges : List (NodeId × List (NodeId × EAttrs))

/-- The empty `Graph()`. -/
def PGraph.empty : PGraph := ⟨[], []⟩

/-- `Graph.has_node`. -/
def PGraph.hasNode (g : PGraph) (n : NodeId) : Bool :=
  (alGet g.nodes n).isSome

/-- `Graph.add_node` (`self._nodes[node] = attrs`). -/
def PGraph.add_node (g : PGraph) (n : NodeId) (attrs : NAttrs) : PGraph :=
  { g with nodes := alSet g.nodes n attrs }

/-- `Graph.get_edge_data` (`self._edges[node1][node2]`). -/
def PGraph.get_edge_data (g : PGraph) (n1 n2 : NodeId) : Option EAttrs :=
  (alGet g.edges n1).bind (fun adj => alGet adj n2)

/-- `Graph.has_edge` (the `KeyError` of `get_edge_data` means false). -/
def PGraph.has_edge (g : PGraph) (n1 n2 : NodeId) : Bool :=
  (g.get_edge_data n1 n2).isSome

/-- `Graph.add_edge`: absent endpoints are first added as nodes with
empty attributes, then the edge attrs are stored. -/
def PGraph.add_edge (g : PGraph) (n1 n2 : NodeId) (attrs : EAttrs) : PGraph :=
  let g1 := if g.hasNode n1 then g else g.add_node n1 ⟨none, none⟩
  let g2 := if g1.hasNode n2 then g1 else g1.add_node n2 ⟨none, none⟩
  let adj := (alGet g2.edges n1).getD []
  { g2 with edges := alSet g2.edges n1 (alSet adj n2 attrs) }

/-- `Graph.remove_edge`: asserts the edge exists, then deletes it. -/
def PGraph.remove_edge (g : PGraph) (n1 n2 : NodeId) : Option PGraph :=
  if g.has_edge n1 n2 then
    let adj := (alGet g.edges n1).getD []
    some { g with edges := alSet g.edges n1 (alErase adj n2) }
  else none

/-- The pairs yielded by `Graph.edges_iter(data=False)`. -/
def PGraph.edgesList (g : PGraph) : List (NodeId × NodeId) :=
  g.edges.flatMap (fun p => p.2.map (fun q => (p.1, q.1)))

/-- `Graph.out_edges`. -/
def PGraph.out_edges (g : PGraph) (n : NodeId) : List (NodeId × NodeId) :=
  ((alGet g.edges n).getD []).map (fun q => (n, q.1))

/-- `Graph.in_edges`. -/
def PGraph.in_edges (g : PGraph) (n : NodeId) : List (NodeId × NodeId) :=
  g.edges.filterMap
    (fun p => if (alGet p.2 n).isSome then some (p.1, n) else none)

/-- Removes the listed edges one by one with `remove_edge` (each removal
asserts presence). -/
def PGraph.removeEdgesSeq (g : PGraph) (l : List (NodeId × NodeId)) :
    Option PGraph :=
  l.foldlM (fun gr e => gr.remove_edge e.1 e.2) g

/-- `Graph.remove_node`: asserts the node exists, collects every edge the
node takes part in, asserts the collection is empty when `remove_edges`
is false, removes the collected edges, and deletes the node. -/
def PGraph.remove_node (g : PGraph) (n : NodeId) (remove_edges : Bool) :
    Option PGraph :=
  if g.hasNode n then
    if remove_edges == false &&
        !(g.edgesList.filter (fun e => e.1 == n || e.2 == n)).isEmpty then none
    else
      (g.removeEdgesSeq (g.edgesList.filter (fun e => e.1 == n || e.2 == n))).map
        (fun g2 => { g2 with nodes := alErase g2.nodes n })
  else none

/-- Well-formedness of the adjacency representation: the outer edge dict
and every inner dict carry pairwise-distinct keys.  This is automatic
for Python dicts and is an invariant of the association-list embedding
that every `Graph` built through the class interface satisfies. -/
def PGraph.edgesWF (g : PGraph) : Prop :=
  (g.edges.map Prod.fst).Nodup ∧ ∀ p ∈ g.edges, (p.2.map Prod.fst).Nodup

/-- One call on the generic `Graph` interface. -/
inductive GraphOp where
  | addNode (n : NodeId) (attrs : NAttrs) : GraphOp
  | addEdge (n1 n2 : NodeId) (attrs : EAttrs) : GraphOp
  | removeEdge (n1 n2 : NodeId) : GraphOp
  | removeNode (n : NodeId) (remove_edges : Bool) : GraphOp

/-- Runs one graph operation (`none` models a raised exception). -/
def runGraphOp (g : PGraph) : GraphOp → Option PGraph
  | .addNode n attrs => some (g.add_node n attrs)
  | .addEdge n1 n2 attrs => some (g.add_edge n1 n2 attrs)
  | .removeEdge n1 n2 => g.remove_edge n1 n2
  | .removeNode n re => g.remove_node n re

/-- Runs a sequence of graph operations. -/
def runGraphOps (ops : List GraphOp) (g : PGraph) : Option PGraph :=
  ops.foldlM runGraphOp g

/-- Substring test (Python `needle in hay` on strings). -/
def strContains (hay needle : String) : Bool :=
  decide (needle.data <:+: hay.data)

/-- `TopologyGraph._host_node_id`: the `name` attribute of the host. -/
def hostNodeId (h : Host) : NodeId := .str h.name

/-- `TopologyGraph._interface_node_id`: the interface name, falling back
to `port_no` when the name is empty. -/
def interfaceNodeId (i : NetPort) : NodeId :=
  if i.name = "" then .num i.port_no else .str i.name

/-- `TopologyGraph._switch_node_id`: the `name` attribute of the
switch. -/
def switchNodeId (s : Switch) : NodeId := .str s.name

/-- `TopologyGraph._port_node_id` for a node whose switch-id string is
`sid`: the port name when it is nonempty and mentions `sid`,
otherwise the composite `"sid-port_no"`. -/
def portNodeId (sid : String) (p : NetPort) : NodeId :=
  if p.name == "" || !(strContains p.name sid) then
    .str (sid ++ "-" ++ toString p.port_no)
  else .str p.name

/-- The typed topology graph, wrapping the in-repo `Graph` (the code
path taken when `networkx` is unavailable). -/
structure TopologyGraph where
  g : PGraph

/-- `TopologyGraph._interfaces_iterator`: interface node id and object
for every interface of a host. -/
def interfacesIterator (h : Host) : List (NodeId × NetPort) :=
  h.interfaces.map (fun i => (interfaceNodeId i, i))

/-- `TopologyGraph._ports_iterator`: port node id and object for every
port of a switch; the id falls back to `"sid-port_no"` built from the
dict key. -/
def portsIterator (sw : Switch) : List (NodeId × NetPort) :=
  sw.ports.map (fun pp =>
    let sid := nodeIdStr (switchNodeId sw)
    let vertex :=
      if pp.2.name == "" || !(strContains pp.2.name sid) then
        sid ++ "-" ++ toString pp.1
      else pp.2.name
    (.str vertex, pp.2))

/-- `TopologyGraph._get_attrs`: index the node dict (`KeyError` on a
missing node) and assert the expected `ntype`. -/
def TopologyGraph.getAttrs (t : TopologyGraph) (n : NodeId) (ntype : String) :
    Option NAttrs := do
  let info ← alGet t.g.nodes n
  if info.ntype == some ntype then some info else none

/-- `TopologyGraph.has_host`: the node exists and, through the asserting
attribute fetch, is typed HOST (`none` models the assertion failure on a
node of another type). -/
def TopologyGraph.has_host (t : TopologyGraph) (host : Host) : Option Bool :=
  let hid := hostNodeId host
  if t.g.hasNode hid then (t.getAttrs hid "host").map (fun _ => true)
  else some false

/-- `TopologyGraph.get_host`: the stored host object
(`get_host_attrs(host)['obj']`). -/
def TopologyGraph.get_host (t : TopologyGraph) (host : Host) : Option Host := do
  let attrs ← t.getAttrs (hostNodeId host) "host"
  match attrs.obj with
  | some (.host h) => some h
  | _ => none

/-- `TopologyGraph.add_host`: asserts the host vertex is new, adds it,
and adds every interface vertex with the two INTERNAL_LINK edges. -/
def TopologyGraph.add_host (t : TopologyGraph) (host : Host) :
    Option TopologyGraph :=
  let hid := hostNodeId host
  if t.g.hasNode hid then none
  else
    let g0 := t.g.add_node hid ⟨some "host", some (.host host)⟩
    let gf := (interfacesIterator host).foldl
      (fun g pi =>
        let g1 := g.add_node pi.1 ⟨some "INTERFACE", some (.iface pi.2)⟩
        let g2 := g1.add_edge hid pi.1 ⟨some "internal_link", none, none⟩
        g2.add_edge pi.1 hid ⟨some "internal_link", none, none⟩)
      g0
    some ⟨gf⟩

/-- `TopologyGraph._remove_node`: asserts the node exists with the
expected `ntype`, removes its out-edges, then its in-edges, then the
node itself. -/
def TopologyGraph._remove_node (t : TopologyGraph) (n : NodeId)
    (ntype : String) : Option TopologyGraph := do
  let info ← alGet t.g.nodes n
  if info.ntype == some ntype then do
    let g1 ← t.g.removeEdgesSeq (t.g.out_edges n)
    let g2 ← g1.removeEdgesSeq (g1.in_edges n)
    let g3 ← g2.remove_node n true
    pure ⟨g3⟩
  else none

/-- `TopologyGraph.remove_interface`. -/
def TopologyGraph.remove_interface (t : TopologyGraph) (n : NodeId) :
    Option TopologyGraph :=
  t._remove_node n "INTERFACE"

/-- `TopologyGraph.remove_host`: asserts the host is present, removes
each of its interfaces (resolved through the stored host object), then
removes the host vertex. -/
def TopologyGraph.remove_host (t : TopologyGraph) (host : Host) :
    Option TopologyGraph := do
  let ishost ← t.has_host host
  if ishost then do
    let stored ← t.get_host host
    let t2 ← (interfacesIterator stored).foldlM
      (fun tt pi => tt.remove_interface pi.1) t
    t2._remove_node (hostNodeId host) "host"
  else none

/-- The helper `guess_vertex_id` inside
`TopologyGraph._get_link_nodes`: try the PORT naming scheme, then the
INTERFACE naming scheme, against the current vertices. -/
def guessVertexId (t : TopologyGraph) (nodeName : String) (ep : NetPort) :
    Option NodeId :=
  if t.g.hasNode (portNodeId nodeName ep) &&
     ((alGet t.g.nodes (portNodeId nodeName ep)).getD
        ⟨none, none⟩).ntype == some "PORT" then
    some (portNodeId nodeName ep)
  else if t.g.hasNode (interfaceNodeId ep) &&
     ((alGet t.g.nodes (interfaceNodeId ep)).getD
        ⟨none, none⟩).ntype == some "INTERFACE" then
    some (interfaceNodeId ep)
  else none

/-- `TopologyGraph._get_link_nodes`: resolve both endpoints of a link
object to vertex ids (either may fail to resolve). -/
def TopologyGraph._get_link_nodes (t : TopologyGraph) (l : Link) :
    Option NodeId × Option NodeId :=
  (guessVertexId t l.start_node l.start_port,
   guessVertexId t l.end_node l.end_port)

/-- `TopologyGraph.add_link`: asserts both endpoints resolved to present
vertices; with `bidir` set, adds the two symmetric LINK edges, otherwise
one. -/
def TopologyGraph.add_link (t : TopologyGraph) (l : Link) (bidir : Bool) :
    Option TopologyGraph := do
  let src ← (t._get_link_nodes l).1
  let dst ← (t._get_link_nodes l).2
  if t.g.hasNode src && t.g.hasNode dst then
    if bidir then
      some ⟨(t.g.add_edge src dst ⟨some "link", some l, some bidir⟩).add_edge
              dst src ⟨some "link", some l, some bidir⟩⟩
    else
      some ⟨t.g.add_edge src dst ⟨some "link", some l, some bidir⟩⟩
  else none

/-- `TopologyGraph.get_link`: `None` (the inner `none`) when there is no
edge; on an existing edge, asserts it is a LINK (the outer `none` models
that assertion and the `KeyError` on a missing `obj`). -/
def TopologyGraph.get_link (t : TopologyGraph) (src dst : NodeId) :
    Option (Option Link) :=
  if t.g.has_edge src dst then
    match t.g.get_edge_data src dst with
    | some attrs =>
      if attrs.etype == some "link" then
        match attrs.obj with
        | some l => some (some l)
        | none => none
      else none
    | none => some none
  else some none

/-- `TopologyGraph.has_link`: the resolved endpoints carry a LINK edge
(an unresolved endpoint simply makes `get_link` return `None`). -/
def TopologyGraph.has_link (t : TopologyGraph) (l : Link) : Option Bool :=
  match t._get_link_nodes l with
  | (some src, some dst) => (t.get_link src dst).map (fun r => r.isSome)
  | _ => some false

/-- `TopologyGraph.remove_link`: asserts `has_link`, reads the `bidir`
attribute of the forward edge, removes it, and removes the reverse edge
when `bidir` is set and the edge exists. -/
def TopologyGraph.remove_link (t : TopologyGraph) (l : Link) :
    Option TopologyGraph := do
  let hl ← t.has_link l
  if hl then do
    let src ← (t._get_link_nodes l).1
    let dst ← (t._get_link_nodes l).2
    let attrs ← t.g.get_edge_data src dst
    let bidir ← attrs.bidir
    let g1 ← t.g.remove_edge src dst
    if bidir && g1.has_edge dst src then
      (g1.remove_edge dst src).map (fun g2 => (⟨g2⟩ : TopologyGraph))
    else
      pure ⟨g1⟩
  else none

mutual

theorem pyBeq_eq : ∀ (a b : PyVal), pyBeq a b = true ↔ a = b
  | .pnone, b => by cases b <;> simp [pyBeq]
  | .pbool x, b => by cases b <;> simp [pyBeq]
  | .pint x, b => by cases b <;> simp [pyBeq]
  | .pstr x, b => by cases b <;> simp [pyBeq]
  | .ptuple xs, b => by cases b <;> simp [pyBeq, pyBeqList_eq xs]
  | .plist xs, b => by cases b <;> simp [pyBeq, pyBeqList_eq xs]
  | .pdict xs, b => by cases b <;> simp [pyBeq, pyBeqKVs_eq xs]
  | .pofFp a, b => by cases b <;> simp [pyBeq, pyBeq_eq a]
  | .pdpFp a, b => by cases b <;> simp [pyBeq, pyBeq_eq a]

theorem pyBeqList_eq : ∀ (xs ys : List PyVal), pyBeqList xs ys = true ↔ xs = ys
  | [], ys => by cases ys <;> simp [pyBeqList]
  | x :: xs, [] => by simp [pyBeqList]
  | x :: xs, y :: ys => by
    simp [pyBeqList, Bool.and_eq_true, pyBeq_eq x, pyBeqList_eq xs]

theorem pyBeqKVs_eq : ∀ (xs ys : List (String × PyVal)),
    pyBeqKVs xs ys = true ↔ xs = ys
  | [], ys => by cases ys <;> simp [pyBeqKVs]
  | x :: xs, [] => by simp [pyBeqKVs]
  | (k1, v1) :: xs, (k2, v2) :: ys => by
    simp [pyBeqKVs, Bool.and_eq_true, pyBeq_eq v1, pyBeqKVs_eq xs, and_assoc]

end

/-- C2: for LinkFailure and LinkRecovery the fingerprint is exactly the
five-tuple (class name, start_dpid, start_port_no, end_dpid,
end_port_no); hence events of the same class differing in any endpoint
field have distinct fingerprints, and on the concrete events of the spec
scenario — LinkFailure(1,1,2,1), LinkFailure(1,1,2,2) and the
endpoint-swapped LinkFailure(2,1,1,1) — all three fingerprints are
pairwise distinct. -/
theorem c2_link_fingerprints :
    (∀ e : LinkFailure, e.fingerprint =
      .ptuple [.pstr "LinkFailure", .pint e.start_dpid, .pint e.start_port_no,
               .pint e.end_dpid, .pint e.end_port_no]) ∧
    (∀ e1 e2 : LinkFailure, e1.fingerprint = e2.fingerprint →
      e1.start_dpid = e2.start_dpid ∧ e1.start_port_no = e2.start_port_no ∧
      e1.end_dpid = e2.end_dpid ∧ e1.end_port_no = e2.end_port_no) ∧
    (∀ e : LinkRecovery, e.fingerprint =
      .ptuple [.pstr "LinkRecovery", .pint e.start_dpid, .pint e.start_port_no,
               .pint e.end_dpid, .pint e.end_port_no]) ∧
    (∀ e1 e2 : LinkRecovery, e1.fingerprint = e2.fingerprint →
      e1.start_dpid = e2.start_dpid ∧ e1.start_port_no = e2.start_port_no ∧
      e1.end_dpid = e2.end_dpid ∧ e1.end_port_no = e2.end_port_no) ∧
    (({ label := "e1", logical_round := -1, event_time := ⟨0, 0⟩,
        dependent_labels := [], prunable := true, timed_out := false,
        start_dpid := 1, start_port_no := 1, end_dpid := 2,
        end_port_no := 1 } : LinkFailure).fingerprint ≠
     ({ label := "e2", logical_round := -1, event_time := ⟨0, 0⟩,
        dependent_labels := [], prunable := true, timed_out := false,
        start_dpid := 1, start_port_no := 1, end_dpid := 2,
        end_port_no := 2 } : LinkFailure).fingerprint) ∧
    (({ label := "e1", logical_round := -1, event_time := ⟨0, 0⟩,
        dependent_labels := [], prunable := true, timed_out := false,
        start_dpid := 1, start_port_no := 1, end_dpid := 2,
        end_port_no := 1 } : LinkFailure).fingerprint ≠
     ({ label := "e3", logical_round := -1, event_time := ⟨0, 0⟩,
        dependent_labels := [], prunable := true, timed_out := false,
        start_dpid := 2, start_port_no := 1, end_dpid := 1,
        end_port_no := 1 } : LinkFailure).fingerprint) ∧
    (({ label := "e2", logical_round := -1, event_time := ⟨0, 0⟩,
        dependent_labels := [], prunable := true, timed_out := false,
        start_dpid := 1, start_port_no := 1, end_dpid := 2,
        end_port_no := 2 } : LinkFailure).fingerprint ≠
     ({ label := "e3", logical_round := -1, event_time := ⟨0, 0⟩,
        dependent_labels := [], prunable := true, timed_out := false,
        start_dpid := 2, start_port_no := 1, end_dpid := 1,
        end_port_no := 1 } : LinkFailure).fingerprint) := by
  refine ⟨fun e => rfl, fun e1 e2 h => ?_, fun e => rfl, fun e1 e2 h => ?_,
    ?_, ?_, ?_⟩
  · simp [LinkFailure.fingerprint] at h
    exact ⟨h.1, h.2.1, h.2.2.1, h.2.2.2⟩
  · simp [LinkRecovery.fingerprint] at h
    exact ⟨h.1, h.2.1, h.2.2.1, h.2.2.2⟩
  · intro hcontra; simp [LinkFailure.fingerprint] at hcontra
  · intro hcontra; simp [LinkFailure.fingerprint] at hcontra
  · intro hcontra; simp [LinkFailure.fingerprint] at hcontra

/-- Witness for C2: the discrimination direction applied to two concrete
LinkFailure events with equal fingerprints. -/
theorem c2_link_fingerprints_witness :
    ({ label := "e1", logical_round := -1, event_time := ⟨0, 0⟩,
       dependent_labels := [], prunable := true, timed_out := false,
       start_dpid := 1, start_port_no := 1, end_dpid := 2,
       end_port_no := 1 } : LinkFailure).start_dpid =
    ({ label := "e9", logical_round := 4, event_time := ⟨7, 8⟩,
       dependent_labels := ["i2"], prunable := false, timed_out := true,
       start_dpid := 1, start_port_no := 1, end_dpid := 2,
       end_port_no := 1 } : LinkFailure).start_dpid :=
  (c2_link_fingerprints.2.1 _ _ rfl).1

/-- C3: two embedded events compare equal exactly when they have the same
concrete class and the same label (no other field is consulted), and
equal events have equal hashes, since the hash is computed from the label
alone. -/
theorem c3_event_equality :
    ∀ e1 e2 : AnyEvent,
      (eventEq e1 e2 = true ↔
        (e1.className = e2.className ∧ e1.label = e2.label)) ∧
      (eventEq e1 e2 = true → eventHash e1 = eventHash e2) := by
  intro e1 e2
  have hiff : eventEq e1 e2 = true ↔
      (e1.className = e2.className ∧ e1.label = e2.label) := by
    unfold eventEq
    by_cases h : e1.className = e2.className <;> simp [h]
  refine ⟨hiff, fun h => ?_⟩
  have := (hiff.mp h).2
  simp [eventHash, this]

/-- Witness for C3: the hash direction applied to two concrete events of
the same class and label but different other fields. -/
theorem c3_event_equality_witness :
    eventHash
      (.switchFailure
        { label := "e5", logical_round := -1, event_time := ⟨0, 0⟩,
          dependent_labels := [], prunable := true, timed_out := false,
          dpid := 1 }) =
    eventHash
      (.switchFailure
        { label := "e5", logical_round := 77, event_time := ⟨1, 2⟩,
          dependent_labels := ["e1"], prunable := false, timed_out := true,
          dpid := 9 }) :=
  (c3_event_equality _ _).2 (by decide)

theorem jsonNormalizeList_map_pstr (l : List String) :
    jsonNormalizeList (l.map .pstr) = some (l.map .pstr) := by
  induction l with
  | nil => simp [jsonNormalizeList]
  | cons x xs ih => simp [jsonNormalizeList, jsonNormalize, ih]

set_option maxHeartbeats 1000000 in
theorem switchFailure_round_trip_aux (e : SwitchFailure) (i : Int) (hi : labelIdOf e.label = some i) :
    encodeDecodeAny (.switchFailure e) =
      some (.switchFailure
        { label := e.label, logical_round := e.logical_round,
          event_time := e.event_time, dependent_labels := [], prunable := true,
          timed_out := false, dpid := e.dpid }) := by
  simp [encodeDecodeAny, SwitchFailure.to_json, SwitchFailure.fingerprint,
    dictify_fingerprint, fingerprintElem, baseDictFields, eventTimeJson,
    jsonNormalize, jsonNormalizeKVs, jsonNormalizeList, jsonNormalizeList_map_pstr,
    SwitchFailure.from_json, extract_label_time, pget, alookup, asSyncTime,
    pyInt, hi]

set_option maxHeartbeats 1000000 in
theorem linkFailure_round_trip_aux (e : LinkFailure) (i : Int)
    (hi : labelIdOf e.label = some i) :
    encodeDecodeAny (.linkFailure e) =
      some (.linkFailure
        { label := e.label, logical_round := e.logical_round,
          event_time := e.event_time, dependent_labels := [], prunable := true,
          timed_out := false, start_dpid := e.start_dpid,
          start_port_no := e.start_port_no, end_dpid := e.end_dpid,
          end_port_no := e.end_port_no }) := by
  simp [encodeDecodeAny, LinkFailure.to_json, LinkFailure.fingerprint,
    dictify_fingerprint, fingerprintElem, baseDictFields, eventTimeJson,
    jsonNormalize, jsonNormalizeKVs, jsonNormalizeList, jsonNormalizeList_map_pstr,
    LinkFailure.from_json, extract_label_time, pget, alookup, asSyncTime,
    pyInt, hi]

set_option maxHeartbeats 1000000 in
theorem pingEvent_round_trip_aux (e : PingEvent) (i : Int)
    (hi : labelIdOf e.label = some i) :
    encodeDecodeAny (.pingEvent e) =
      some (.pingEvent
        { label := e.label, logical_round := e.logical_round,
          event_time := e.event_time, dependent_labels := [],
          prunable := e.prunable, timed_out := false,
          src_host_id := e.src_host_id, dst_host_id := e.dst_host_id }) := by
  simp [encodeDecodeAny, PingEvent.to_json, PingEvent.fingerprint,
    baseDictFields, eventTimeJson,
    jsonNormalize, jsonNormalizeKVs, jsonNormalizeList, jsonNormalizeList_map_pstr,
    PingEvent.from_json, extract_label_time, pget, alookup, asSyncTime, hi]

set_option maxHeartbeats 1000000 in
theorem trafficInjection_round_trip_aux (e : TrafficInjection)
    (d : DataplaneEvent) (nd : PyVal) (i : Int)
    (hd : e.dp_event = some d) (hnd : jsonNormalize d.payload = some nd)
    (hi : labelIdOf e.label = some i) :
    encodeDecodeAny (.trafficInjection e) =
      some (.trafficInjection
        { label := e.label, logical_round := e.logical_round,
          event_time := e.event_time, dependent_labels := [],
          prunable := e.prunable, timed_out := false,
          dp_event := some ⟨nd⟩, host_id := e.host_id }) := by
  cases e022 : e.host_id with
  | none =>
    simp [encodeDecodeAny, TrafficInjection.to_json, hd, DataplaneEvent.to_json,
      hostIdJson, e022, baseDictFields, eventTimeJson,
      jsonNormalize, jsonNormalizeKVs, jsonNormalizeList,
      jsonNormalizeList_map_pstr, hnd,
      TrafficInjection.from_json, extract_label_time, pget, alookup, asSyncTime,
      DataplaneEvent.from_json, hi]
  | some n =>
    simp [encodeDecodeAny, TrafficInjection.to_json, hd, DataplaneEvent.to_json,
      hostIdJson, e022, baseDictFields, eventTimeJson,
      jsonNormalize, jsonNormalizeKVs, jsonNormalizeList,
      jsonNormalizeList_map_pstr, hnd,
      TrafficInjection.from_json, extract_label_time, pget, alookup, asSyncTime,
      DataplaneEvent.from_json, hi]

theorem violationStrings_map_pstr (l : List String) :
    violationStrings (l.map PyVal.pstr) = some l := by
  induction l with
  | nil => simp [violationStrings]
  | cons x xs ih => simp [violationStrings, ih]

set_option maxHeartbeats 1000000 in
theorem invariantViolation_round_trip_aux (e : InvariantViolation) (i : Int)
    (hv : e.violations ≠ []) (hi : labelIdOf e.label = some i) :
    encodeDecodeAny (.invariantViolation e) =
      some (.invariantViolation
        { label := e.label, logical_round := e.logical_round,
          event_time := e.event_time, dependent_labels := [], prunable := true,
          timed_out := false, violations := e.violations,
          persistent := e.persistent }) := by
  simp [encodeDecodeAny, InvariantViolation.to_json,
    dictify_fingerprint, fingerprintElem, baseDictFields, eventTimeJson,
    jsonNormalize, jsonNormalizeKVs, jsonNormalizeList, jsonNormalizeList_map_pstr,
    InvariantViolation.from_json, extract_label_time, pget, alookup, asSyncTime,
    invariantViolationInitViolations, List.length_eq_zero, hv,
    violationStrings_map_pstr, hi]

theorem jsonNormalizeList_append (xs ys : List PyVal) :
    jsonNormalizeList (xs ++ ys) =
      (jsonNormalizeList xs).bind
        (fun a => (jsonNormalizeList ys).map (fun b => a ++ b)) := by
  induction xs with
  | nil =>
    simp [jsonNormalizeList]
  | cons x xt ih =>
    simp [jsonNormalizeList, ih]
    cases jsonNormalize x <;> simp
    cases jsonNormalizeList xt <;> simp
    cases jsonNormalizeList ys <;> simp

set_option maxHeartbeats 1000000 in
theorem cms_round_trip_aux (e : ControlMessageSend) (c : String) (d : PyVal)
    (dp2 : Int) (cid2 : String) (nd : PyVal) (i : Int)
    (hfp : e._fingerprint = .ptuple [.pstr c, .pofFp d, .pint dp2, .pstr cid2])
    (hnd : jsonNormalize d = some nd)
    (hi : labelIdOf e.label = some i) :
    encodeDecodeAny (.controlMessageSend e) =
      some (.controlMessageSend
        { label := e.label, logical_round := e.logical_round,
          event_time := e.event_time, dependent_labels := [],
          prunable := false, timed_out := false,
          timeout_disallowed := e.timeout_disallowed,
          dpid := e.dpid, controller_id := e.controller_id,
          b64_packet := e.b64_packet,
          _fingerprint := .ptuple [.pstr c, .pofFp nd, .pint dp2,
            .ptuple (cid2.data.map (fun ch => .pstr (String.mk [ch])))],
          ignore_whitelisted_packets := false,
          pass_through_sends := false }) := by
  simp [encodeDecodeAny, ControlMessageSend.to_json, hfp,
    dictify_fingerprint, fingerprintElem, baseDictFields, eventTimeJson,
    jsonNormalize, jsonNormalizeKVs, jsonNormalizeList, jsonNormalizeList_map_pstr,
    hnd, ControlMessageSend.from_json, extract_base_fields, extract_label_time,
    pget, alookup, asSyncTime, hi, controlMessageFingerprint, pyTupleOf]

set_option maxHeartbeats 1000000 in
theorem csc_round_trip_aux (e : ControllerStateChange) (xs : List PyVal)
    (xs2 : List PyVal) (v2 : PyVal) (i : Int)
    (hfp : e._fingerprint = .ptuple xs)
    (hxs2 : jsonNormalizeList (xs.map fingerprintElem) = some xs2)
    (hv2 : jsonNormalize e.value = some v2)
    (hi : labelIdOf e.label = some i) :
    encodeDecodeAny (.controllerStateChange e) =
      some (.controllerStateChange
        { label := e.label, logical_round := e.logical_round,
          event_time := e.event_time, dependent_labels := [],
          prunable := false, timed_out := false,
          timeout_disallowed := e.timeout_disallowed,
          controller_id := e.controller_id,
          _fingerprint := .ptuple (xs2 ++ [.pstr e.controller_id]),
          name := e.name, value := pyTupleIfList v2 }) := by
  simp [encodeDecodeAny, ControllerStateChange.to_json,
    ControllerStateChange.fingerprintProp, hfp,
    dictify_fingerprint, fingerprintElem, baseDictFields, eventTimeJson,
    jsonNormalize, jsonNormalizeKVs, jsonNormalizeList_append,
    jsonNormalizeList, jsonNormalizeList_map_pstr, hxs2, hv2,
    ControllerStateChange.from_json, extract_base_fields, extract_label_time,
    pget, alookup, asSyncTime, hi, cscNormalizeFingerprint]

theorem cmsFpValid_shape (fp : PyVal) (h : cmsFpValid fp = true) :
    ∃ c d dp2 cid2 nd,
      fp = .ptuple [.pstr c, .pofFp d, .pint dp2, .pstr cid2] ∧
      jsonNormalize d = some nd := by
  unfold cmsFpValid at h
  split at h
  · next c d dp2 cid2 =>
    obtain ⟨nd, hnd⟩ := Option.isSome_iff_exists.mp h
    exact ⟨c, d, dp2, cid2, nd, rfl, hnd⟩
  · exact absurd h (by simp)

theorem cscFpValid_shape (fp : PyVal) (h : cscFpValid fp = true) :
    ∃ xs xs2,
      fp = .ptuple xs ∧
      jsonNormalizeList (xs.map fingerprintElem) = some xs2 := by
  unfold cscFpValid at h
  split at h
  · next xs =>
    obtain ⟨xs2, hxs2⟩ := Option.isSome_iff_exists.mp h
    exact ⟨xs, xs2, rfl, hxs2⟩
  · exact absurd h (by simp)

/-- C1: for every valid instance of the embedded concrete event classes
(SwitchFailure, LinkFailure, PingEvent, TrafficInjection,
ControlMessageSend, ControllerStateChange, InvariantViolation), decoding
the parse of the JSON object `to_json` produces yields an event that is
equal to the original under the event equality of the data model: the
same concrete class with the same label. -/
theorem c1_codec_round_trip (e : AnyEvent) (h : eventValid e = true) :
    ∃ e2, encodeDecodeAny e = some e2 ∧ eventEq e2 e = true := by
  cases e with
  | switchFailure e =>
    simp only [eventValid, Option.isSome_iff_exists] at h
    obtain ⟨i, hi⟩ := h
    exact ⟨_, switchFailure_round_trip_aux e i hi,
      by simp [eventEq, AnyEvent.className, AnyEvent.label]⟩
  | linkFailure e =>
    simp only [eventValid, Option.isSome_iff_exists] at h
    obtain ⟨i, hi⟩ := h
    exact ⟨_, linkFailure_round_trip_aux e i hi,
      by simp [eventEq, AnyEvent.className, AnyEvent.label]⟩
  | pingEvent e =>
    simp only [eventValid, Option.isSome_iff_exists] at h
    obtain ⟨i, hi⟩ := h
    exact ⟨_, pingEvent_round_trip_aux e i hi,
      by simp [eventEq, AnyEvent.className, AnyEvent.label]⟩
  | trafficInjection e =>
    simp only [eventValid, Bool.and_eq_true, Option.isSome_iff_exists] at h
    obtain ⟨⟨i, hi⟩, h2⟩ := h
    cases hd : e.dp_event with
    | none => rw [hd] at h2; simp at h2
    | some d =>
      rw [hd] at h2
      simp only [Option.isSome_iff_exists] at h2
      obtain ⟨nd, hnd⟩ := h2
      exact ⟨_, trafficInjection_round_trip_aux e d nd i hd hnd hi,
        by simp [eventEq, AnyEvent.className, AnyEvent.label]⟩
  | controlMessageSend e =>
    simp only [eventValid, Bool.and_eq_true, Option.isSome_iff_exists] at h
    obtain ⟨⟨i, hi⟩, h2⟩ := h
    obtain ⟨c, d, dp2, cid2, nd, hfp, hnd⟩ := cmsFpValid_shape _ h2
    exact ⟨_, cms_round_trip_aux e c d dp2 cid2 nd i hfp hnd hi,
      by simp [eventEq, AnyEvent.className, AnyEvent.label]⟩
  | controllerStateChange e =>
    simp only [eventValid, Bool.and_eq_true, Option.isSome_iff_exists] at h
    obtain ⟨⟨⟨i, hi⟩, h2⟩, h3⟩ := h
    obtain ⟨xs, xs2, hfp, hxs2⟩ := cscFpValid_shape _ h2
    obtain ⟨v2, hv2⟩ := h3
    exact ⟨_, csc_round_trip_aux e xs xs2 v2 i hfp hxs2 hv2 hi,
      by simp [eventEq, AnyEvent.className, AnyEvent.label]⟩
  | invariantViolation e =>
    simp only [eventValid, Bool.and_eq_true, Option.isSome_iff_exists,
      Bool.not_eq_true', List.isEmpty_eq_false] at h
    obtain ⟨⟨i, hi⟩, hv⟩ := h
    exact ⟨_, invariantViolation_round_trip_aux e i hv hi,
      by simp [eventEq, AnyEvent.className, AnyEvent.label]⟩

/-- Witness for C1: the round trip applied to a concrete SwitchFailure
event. -/
theorem c1_codec_round_trip_witness :
    ∃ e2,
      encodeDecodeAny
        (.switchFailure
          { label := "e1", logical_round := 0, event_time := ⟨12, 34⟩,
            dependent_labels := [], prunable := true, timed_out := false,
            dpid := 7 }) = some e2 ∧
      eventEq e2
        (.switchFailure
          { label := "e1", logical_round := 0, event_time := ⟨12, 34⟩,
            dependent_labels := [], prunable := true, timed_out := false,
            dpid := 7 }) = true :=
  c1_codec_round_trip _ (by decide)

/-- Counterexample for C4: constructing an event with the explicit label
"e1" while id 1 is already in `_all_label_ids` does not raise — the
constructor returns normally with that label (there is no
`DuplicateLabel` error anywhere on this path). -/
theorem c4_duplicate_label_counterexample :
    (1 : Int) ∈ ({1} : Finset Int) ∧
    eventInitLabel "e" (some "e1") ⟨2, {1}⟩ =
      .ok ("e1", ⟨2, insert 1 ({1} : Finset Int)⟩) := by
  exact ⟨by decide, rfl⟩

/-- C4 as amended: reusing an explicit label raises nothing — the
constructor accepts the duplicate label unchanged and records its
numeric id; uniqueness is only maintained for auto-generated labels
(the generator skips ids already handed out). -/
theorem c4_duplicate_label_amended (st : LabelState) (pfx l : String) (i : Int)
    (hid : labelIdOf l = some i) (hdup : i ∈ st.used) :
    eventInitLabel pfx (some l) st = .ok (l, ⟨st.counter, insert i st.used⟩) := by
  simp [eventInitLabel, hid]

/-- Witness for the amended C4, at a concrete duplicate label. -/
theorem c4_duplicate_label_amended_witness :
    eventInitLabel "i" (some "i5") ⟨9, {1, 5}⟩ =
      .ok ("i5", ⟨9, insert 5 ({1, 5} : Finset Int)⟩) :=
  c4_duplicate_label_amended ⟨9, {1, 5}⟩ "i" "i5" 5 rfl (by decide)

/-- Counterexample for C5: decoding a PingEvent JSON object that lacks
the `prunable` field yields `prunable = True`, while the PingEvent
constructor default is `False`. -/
theorem c5_prunable_default_counterexample :
    (PingEvent.from_json
        (.pdict [("label", .pstr "e1"),
                 ("event_time", .plist [.pint 0, .pint 0]),
                 ("logical_round", .pint 0),
                 ("src_host_id", .pstr "h1"),
                 ("dst_host_id", .pstr "h2")])).map (fun e => e.prunable) =
      some true ∧
    pingEventDefaultPrunable = false := by
  exact ⟨rfl, rfl⟩

/-- C5 as amended: both decoders default a missing `prunable` field to
`True` — which coincides with the TrafficInjection constructor default
(True) but not with the PingEvent constructor default (False). -/
theorem c5_prunable_default_amended :
    (∀ j e, pget j "prunable" = none → PingEvent.from_json j = some e →
      e.prunable = true) ∧
    (∀ j e, pget j "prunable" = none → TrafficInjection.from_json j = some e →
      e.prunable = true) ∧
    trafficInjectionDefaultPrunable = true ∧
    pingEventDefaultPrunable = false := by
  refine ⟨?_, ?_, rfl, rfl⟩
  · intro j e hp hdec
    unfold PingEvent.from_json at hdec
    rw [hp] at hdec
    cases hlt : extract_label_time j
    case none =>
      rw [hlt] at hdec
      exact absurd hdec (by simp)
    case some val =>
      rw [hlt] at hdec
      simp only [Option.bind_eq_bind, Option.some_bind,
        Option.bind_eq_some, Option.some_inj] at hdec
      obtain ⟨srcv, hsrc, dstv, hdst, hdec⟩ := hdec
      split at hdec
      · simp only [Option.bind_eq_bind, Option.bind_eq_some, Option.pure_def,
          Option.some_inj] at hdec
        obtain ⟨i, hi, hdec⟩ := hdec
        subst hdec
        rfl
      · exact absurd hdec (by simp)
  · intro j e hp hdec
    unfold TrafficInjection.from_json at hdec
    rw [hp] at hdec
    cases hlt : extract_label_time j
    case none =>
      rw [hlt] at hdec
      exact absurd hdec (by simp)
    case some val =>
      rw [hlt] at hdec
      simp only [Option.bind_eq_bind, Option.some_bind,
        DataplaneEvent.from_json, Option.map_some'] at hdec
      split at hdec <;> split at hdec <;>
        simp only [Option.bind_eq_bind, Option.some_bind, Option.none_bind,
          Option.bind_eq_some, Option.pure_def, Option.some_inj] at hdec <;>
        obtain ⟨i, hi, hdec⟩ := hdec <;> subst hdec <;> rfl

/-- Witness for the amended C5, at a concrete prunable-less JSON object
of each class. -/
theorem c5_prunable_default_amended_witness :
    ({ label := "e1", logical_round := 0, event_time := ⟨0, 0⟩,
       dependent_labels := [], prunable := true, timed_out := false,
       src_host_id := "h1", dst_host_id := "h2" } : PingEvent).prunable =
      true :=
  c5_prunable_default_amended.1
    (.pdict [("label", .pstr "e1"),
             ("event_time", .plist [.pint 0, .pint 0]),
             ("logical_round", .pint 0),
             ("src_host_id", .pstr "h1"),
             ("dst_host_id", .pstr "h2")])
    _ rfl rfl

/-- C8: two PendingStateChange values compare equal exactly when their
message fingerprints (the `_get_regex` projections) and controller ids
agree; the `event_time`, `name` and `value` components never enter the
comparison, and equal values have equal hashes, the hash being computed
from the message fingerprint and controller id only. -/
theorem c8_psc_identity (p1 p2 : PendingStateChange) (r1 r2 : PyVal)
    (h1 : p1._get_regex = some r1) (h2 : p2._get_regex = some r2) :
    (pscEq p1 p2 = some true ↔
      (r1 = r2 ∧ p1.controller_id = p2.controller_id)) ∧
    (pscEq p1 p2 = some true → pscHash p1 = pscHash p2) ∧
    (∀ et nm v, pscEq ⟨p1.controller_id, et, p1.fingerprint, nm, v⟩ p2 =
      pscEq p1 p2) := by
  have hiff : pscEq p1 p2 = some true ↔
      (r1 = r2 ∧ p1.controller_id = p2.controller_id) := by
    simp [pscEq, h1, h2, Bool.and_eq_true, pyBeq_eq, beq_iff_eq]
  refine ⟨hiff, fun h => ?_, fun et nm v => rfl⟩
  obtain ⟨hr, hc⟩ := hiff.mp h
  simp [pscHash, PendingStateChange._get_regex] at h1 h2 ⊢
  simp [pscHash, h1, h2, hr, hc]

/-- Witness for C8: two concrete PendingStateChange values differing in
time, name and value but sharing the message fingerprint and controller
id. -/
theorem c8_psc_identity_witness :
    (pscEq
        ⟨"c1", .pint 1, .ptuple [.pstr "ControllerStateChange", .pstr "fp"],
         .pstr "n", .pint 5⟩
        ⟨"c1", .pint 99, .ptuple [.pstr "Other", .pstr "fp"],
         .pstr "m", .pint 7⟩ = some true ↔
      ((PyVal.pstr "fp") = (PyVal.pstr "fp") ∧ "c1" = "c1")) ∧
    (pscEq
        ⟨"c1", .pint 1, .ptuple [.pstr "ControllerStateChange", .pstr "fp"],
         .pstr "n", .pint 5⟩
        ⟨"c1", .pint 99, .ptuple [.pstr "Other", .pstr "fp"],
         .pstr "m", .pint 7⟩ = some true →
      pscHash ⟨"c1", .pint 1,
        .ptuple [.pstr "ControllerStateChange", .pstr "fp"],
        .pstr "n", .pint 5⟩ =
      pscHash ⟨"c1", .pint 99, .ptuple [.pstr "Other", .pstr "fp"],
        .pstr "m", .pint 7⟩) ∧
    (∀ et nm v, pscEq ⟨"c1", et,
        .ptuple [.pstr "ControllerStateChange", .pstr "fp"], nm, v⟩
        ⟨"c1", .pint 99, .ptuple [.pstr "Other", .pstr "fp"],
         .pstr "m", .pint 7⟩ =
      pscEq ⟨"c1", .pint 1,
        .ptuple [.pstr "ControllerStateChange", .pstr "fp"],
        .pstr "n", .pint 5⟩
        ⟨"c1", .pint 99, .ptuple [.pstr "Other", .pstr "fp"],
         .pstr "m", .pint 7⟩) :=
  c8_psc_identity _ _ _ _ rfl rfl

/-- C9: a CheckInvariants whose check name is a string outside the static
registry cannot be constructed or decoded: the constructor raises an
error whose message names the unknown check, decode propagates exactly
that error, and every successfully decoded CheckInvariants with a string
check name carries a registered name. -/
theorem c9_unknown_invariant :
    (∀ s label lr et i, labelIdOf label = some i →
      s ∉ name_to_invariant_check →
      CheckInvariants.init label lr et (.byName s) =
        .error (unknownInvariantMsg s)) ∧
    (∀ s, unknownInvariantMsg s =
      "Unknown invariant check " ++ s ++
      ".\nInvariant check name must be defined in config.invariant_checks") ∧
    (∀ j l t r i s, extract_label_time j = some (l, t, r) →
      labelIdOf l = some i →
      pget j "invariant_name" = some (.pstr s) →
      s ∉ name_to_invariant_check →
      CheckInvariants.from_json j = .error (unknownInvariantMsg s)) ∧
    (∀ j e, CheckInvariants.from_json j = .ok e →
      ∀ s, e.invariant_check_name = some s → s ∈ name_to_invariant_check) := by
  have hinit : ∀ s label lr et i, labelIdOf label = some i →
      s ∉ name_to_invariant_check →
      CheckInvariants.init label lr et (.byName s) =
        .error (unknownInvariantMsg s) := by
    intro s label lr et i hi hs
    simp [CheckInvariants.init, hi, hs]
  refine ⟨hinit, fun s => rfl, ?_, ?_⟩
  · intro j l t r i s hlt hi hn hs
    unfold CheckInvariants.from_json
    rw [hlt, hn]
    exact hinit s l r t i hi hs
  · intro j e hok s hname
    have hinitok : ∀ label lr et arg e2,
        CheckInvariants.init label lr et arg = .ok e2 →
        ∀ s2, e2.invariant_check_name = some s2 →
        s2 ∈ name_to_invariant_check := by
      intro label lr et arg e2 h s2 hs2
      unfold CheckInvariants.init at h
      split at h
      · exact absurd h (by simp)
      · split at h
        · simp only [Except.ok.injEq] at h
          subst h
          simp at hs2
        · split at h
          · next hreg =>
            simp only [Except.ok.injEq] at h
            subst h
            simp only [Option.some_inj] at hs2
            subst hs2
            exact hreg
          · exact absurd h (by simp)
    unfold CheckInvariants.from_json at hok
    split at hok
    · exact absurd hok (by simp)
    · exact hinitok _ _ _ _ _ hok s hname

/-- Witness for C9: the constructor applied to the concrete unregistered
name, and decode of a concrete trace line carrying it. -/
theorem c9_unknown_invariant_witness :
    CheckInvariants.init "e1" 0 ⟨0, 0⟩ (.byName "no_such_check") =
      .error (unknownInvariantMsg "no_such_check") :=
  c9_unknown_invariant.1 "no_such_check" "e1" 0 ⟨0, 0⟩ 1 rfl (by decide)

theorem alGet_alErase {α β : Type} [DecidableEq α] (l : List (α × β))
    (k k2 : α) :
    alGet (alErase l k) k2 = if k2 = k then none else alGet l k2 := by
  induction l with
  | nil => simp [alErase, alGet]
  | cons hd tl ih =>
    obtain ⟨k1, v⟩ := hd
    by_cases h1 : k1 = k
    · by_cases h2 : k2 = k
      · rw [h2] at ih ⊢
        simp [alErase, alGet, h1, ih]
      · have h5 : ¬ k = k2 := fun hc => h2 hc.symm
        simp [alErase, alGet, h1, h2, h5, ih]
    · by_cases h2 : k1 = k2
      · have h4 : ¬ k2 = k := fun hc => h1 (h2.trans hc)
        simp [alErase, alGet, h1, h2, h4, ih]
      · simp [alErase, alGet, h1, h2, ih]

theorem alGet_append {α β : Type} [DecidableEq α] (l1 l2 : List (α × β))
    (k : α) :
    alGet (l1 ++ l2) k =
      match alGet l1 k with
      | some v => some v
      | none => alGet l2 k := by
  induction l1 with
  | nil => simp [alGet]
  | cons hd tl ih =>
    obtain ⟨k1, v⟩ := hd
    by_cases h1 : k1 = k <;> simp [alGet, h1, ih]

theorem alGet_alSet {α β : Type} [DecidableEq α] (l : List (α × β))
    (k k2 : α) (v : β) :
    alGet (alSet l k v) k2 = if k2 = k then some v else alGet l k2 := by
  unfold alSet
  rw [alGet_append, alGet_alErase]
  by_cases h : k2 = k
  · subst h
    simp [alGet]
  · have h3 : ¬ k = k2 := fun hc => h hc.symm
    rw [if_neg h, if_neg h]
    cases alGet l k2 <;> simp [alGet, h3]

theorem alGet_mem {α β : Type} [DecidableEq α] (l : List (α × β)) (k : α)
    (v : β) (h : alGet l k = some v) : (k, v) ∈ l := by
  induction l with
  | nil => simp [alGet] at h
  | cons hd tl ih =>
    obtain ⟨k1, v1⟩ := hd
    by_cases h1 : k1 = k
    · subst h1
      simp [alGet] at h
      simp [h]
    · simp [alGet, h1] at h
      simp [ih h]

theorem alGet_isSome_iff_mem_keys {α β : Type} [DecidableEq α]
    (l : List (α × β)) (k : α) :
    (alGet l k).isSome = true ↔ k ∈ l.map Prod.fst := by
  induction l with
  | nil => simp [alGet]
  | cons hd tl ih =>
    obtain ⟨k1, v1⟩ := hd
    by_cases h1 : k1 = k <;> simp [alGet, h1, ih]
    exact fun h => absurd h.symm h1

theorem alErase_subset {α β : Type} [DecidableEq α] (l : List (α × β))
    (k : α) (p : α × β) (h : p ∈ alErase l k) : p ∈ l := by
  induction l with
  | nil => simp [alErase] at h
  | cons hd tl ih =>
    obtain ⟨k1, v1⟩ := hd
    by_cases h1 : k1 = k <;> simp [alErase, h1] at h
    · simp [ih h]
    · rcases h with h | h
      · simp [h]
      · simp [ih h]

theorem alErase_keys_not_mem {α β : Type} [DecidableEq α] (l : List (α × β))
    (k : α) : k ∉ (alErase l k).map Prod.fst := by
  induction l with
  | nil => simp [alErase]
  | cons hd tl ih =>
    obtain ⟨k1, v1⟩ := hd
    by_cases h1 : k1 = k <;> simp [alErase, h1, ih]
    exact fun h => absurd h.symm h1

theorem alErase_keys_nodup {α β : Type} [DecidableEq α] (l : List (α × β))
    (k : α) (h : (l.map Prod.fst).Nodup) :
    ((alErase l k).map Prod.fst).Nodup := by
  induction l with
  | nil => simp [alErase]
  | cons hd tl ih =>
    obtain ⟨k1, v1⟩ := hd
    simp only [List.map_cons, List.nodup_cons] at h
    by_cases h1 : k1 = k
    · simp [alErase, h1, ih h.2]
    · simp only [alErase, if_neg h1, List.map_cons, List.nodup_cons]
      refine ⟨fun hmem => h.1 ?_, ih h.2⟩
      obtain ⟨p, hp, hpk⟩ := List.mem_map.mp hmem
      exact List.mem_map.mpr ⟨p, alErase_subset tl k p hp, hpk⟩

theorem alSet_keys_nodup {α β : Type} [DecidableEq α] (l : List (α × β))
    (k : α) (v : β) (h : (l.map Prod.fst).Nodup) :
    ((alSet l k v).map Prod.fst).Nodup := by
  unfold alSet
  rw [List.map_append]
  simp only [List.map_cons, List.map_nil]
  rw [List.nodup_append]
  refine ⟨alErase_keys_nodup l k h, by simp, ?_⟩
  intro a ha hb
  simp only [List.mem_singleton] at hb
  rw [hb] at ha
  exact alErase_keys_not_mem l k ha

theorem alSet_mem {α β : Type} [DecidableEq α] (l : List (α × β))
    (k : α) (v : β) (p : α × β) (h : p ∈ alSet l k v) :
    p ∈ l ∨ p = (k, v) := by
  unfold alSet at h
  rcases List.mem_append.mp h with h | h
  · exact Or.inl (alErase_subset l k p h)
  · simp only [List.mem_singleton] at h
    exact Or.inr h

theorem alErase_mem_ne {α β : Type} [DecidableEq α] (l : List (α × β))
    (k : α) (p : α × β) (h : p ∈ alErase l k) : p.1 ≠ k := by
  intro hc
  apply alErase_keys_not_mem l k
  exact List.mem_map.mpr ⟨p, h, hc⟩

theorem mem_edgesList (g : PGraph) (a b : NodeId) :
    (a, b) ∈ g.edgesList ↔
      ∃ adj, (a, adj) ∈ g.edges ∧ b ∈ adj.map Prod.fst := by
  simp only [PGraph.edgesList, List.mem_flatMap, List.mem_map, Prod.mk.injEq]
  constructor
  · rintro ⟨p, hp, q, hq, rfl, rfl⟩
    exact ⟨p.2, by simpa using hp, ⟨q, hq, rfl⟩⟩
  · rintro ⟨adj, hadj, q, hq, rfl⟩
    exact ⟨(a, adj), hadj, q, hq, rfl, rfl⟩

theorem removeEdgesSeq_nil (g : PGraph) : g.removeEdgesSeq [] = some g := rfl

theorem removeEdgesSeq_cons (g : PGraph) (e : NodeId × NodeId)
    (l : List (NodeId × NodeId)) :
    g.removeEdgesSeq (e :: l) =
      (g.remove_edge e.1 e.2).bind (fun g1 => g1.removeEdgesSeq l) := by
  simp [PGraph.removeEdgesSeq, List.foldlM_cons, Option.bind_eq_bind]

theorem add_edge_edges (g : PGraph) (n1 n2 : NodeId) (attrs : EAttrs) :
    (g.add_edge n1 n2 attrs).edges =
      alSet g.edges n1 (alSet ((alGet g.edges n1).getD []) n2 attrs) := by
  simp only [PGraph.add_edge]
  split_ifs <;> rfl

theorem get_edge_data_add_edge (g : PGraph) (n1 n2 : NodeId) (attrs : EAttrs)
    (a b : NodeId) :
    (g.add_edge n1 n2 attrs).get_edge_data a b =
      if a = n1 ∧ b = n2 then some attrs else g.get_edge_data a b := by
  unfold PGraph.get_edge_data
  rw [add_edge_edges, alGet_alSet]
  by_cases ha : a = n1
  · rw [if_pos ha, Option.some_bind, alGet_alSet]
    by_cases hb : b = n2
    · simp [ha, hb]
    · rw [if_neg hb, if_neg (by intro hc; exact hb hc.2), ha]
      cases hx : alGet g.edges n1 <;> simp [hx, alGet]
  · rw [if_neg ha, if_neg (by intro hc; exact ha hc.1)]

theorem add_edge_hasNode (g : PGraph) (n1 n2 : NodeId) (attrs : EAttrs)
    (m : NodeId) :
    (g.add_edge n1 n2 attrs).hasNode m = true ↔
      (g.hasNode m = true ∨ m = n1 ∨ m = n2) := by
  simp only [PGraph.add_edge]
  split_ifs with hc1 hc2 hc2 <;>
    by_cases hm1 : m = n1 <;> by_cases hm2 : m = n2 <;>
    simp_all [PGraph.hasNode, PGraph.add_node, alGet_alSet]

theorem add_edge_nodes_of_present (g : PGraph) (n1 n2 : NodeId)
    (attrs : EAttrs) (h1 : g.hasNode n1 = true) (h2 : g.hasNode n2 = true) :
    (g.add_edge n1 n2 attrs).nodes = g.nodes := by
  simp only [PGraph.add_edge]
  rw [if_pos h1, if_pos h2]

theorem remove_edge_spec (g : PGraph) (n1 n2 : NodeId)
    (h : g.has_edge n1 n2 = true) :
    ∃ g2, g.remove_edge n1 n2 = some g2 ∧ g2.nodes = g.nodes ∧
      ∀ a b, g2.get_edge_data a b =
        if a = n1 ∧ b = n2 then none else g.get_edge_data a b := by
  unfold PGraph.remove_edge
  rw [h]
  refine ⟨_, rfl, rfl, fun a b => ?_⟩
  unfold PGraph.get_edge_data
  simp only [alGet_alSet]
  by_cases ha : a = n1
  · rw [if_pos ha, Option.some_bind, alGet_alErase]
    by_cases hb : b = n2
    · simp [ha, hb]
    · rw [if_neg hb, if_neg (by intro hc; exact hb hc.2), ha]
      cases hx : alGet g.edges n1 <;> simp [hx, alGet]
  · rw [if_neg ha, if_neg (by intro hc; exact ha hc.1)]

theorem mem_edgesList_add_edge (g : PGraph) (n1 n2 : NodeId) (attrs : EAttrs)
    (a b : NodeId) (hm : (a, b) ∈ (g.add_edge n1 n2 attrs).edgesList) :
    (a, b) ∈ g.edgesList ∨ (a = n1 ∧ b = n2) := by
  rw [mem_edgesList] at hm
  obtain ⟨adj, hadj, hb⟩ := hm
  rw [add_edge_edges] at hadj
  rcases alSet_mem _ _ _ _ hadj with h | h
  · exact Or.inl (by rw [mem_edgesList]; exact ⟨adj, h, hb⟩)
  · have ha : a = n1 := congrArg Prod.fst h
    have hadj2 : adj = alSet ((alGet g.edges n1).getD []) n2 attrs :=
      congrArg Prod.snd h
    subst hadj2
    by_cases hb2 : b = n2
    · exact Or.inr ⟨ha, hb2⟩
    · left
      rw [mem_edgesList]
      obtain ⟨q, hq, hqb⟩ := List.mem_map.mp hb
      rcases alSet_mem _ _ _ _ hq with h2 | h2
      · cases hx : alGet g.edges n1 with
        | none =>
          rw [hx] at h2
          simp at h2
        | some adj0 =>
          rw [hx] at h2
          simp only [Option.getD_some] at h2
          refine ⟨adj0, ?_, List.mem_map.mpr ⟨q, h2, hqb⟩⟩
          rw [ha]
          exact alGet_mem _ _ _ hx
      · rw [h2] at hqb
        exact absurd hqb.symm hb2

theorem alSet_mem_strong {α β : Type} [DecidableEq α] (l : List (α × β))
    (k : α) (v : β) (p : α × β) (h : p ∈ alSet l k v) :
    (p ∈ l ∧ p.1 ≠ k) ∨ p = (k, v) := by
  unfold alSet at h
  rcases List.mem_append.mp h with h | h
  · exact Or.inl ⟨alErase_subset l k p h, alErase_mem_ne l k p h⟩
  · simp only [List.mem_singleton] at h
    exact Or.inr h

theorem mem_edgesList_remove_edge (g : PGraph) (n1 n2 : NodeId) (g2 : PGraph)
    (h : g.remove_edge n1 n2 = some g2) (a b : NodeId)
    (hm : (a, b) ∈ g2.edgesList) :
    (a, b) ∈ g.edgesList ∧ ¬(a = n1 ∧ b = n2) := by
  unfold PGraph.remove_edge at h
  split at h
  case isTrue =>
    simp only [Option.some_inj] at h
    subst h
    rw [mem_edgesList] at hm
    obtain ⟨adj, hadj, hb⟩ := hm
    rcases alSet_mem_strong _ _ _ _ hadj with ⟨h2, hne⟩ | h2
    · refine ⟨?_, fun hc => hne hc.1⟩
      rw [mem_edgesList]
      exact ⟨adj, h2, hb⟩
    · have ha : a = n1 := congrArg Prod.fst h2
      have hadj2 : adj = alErase ((alGet g.edges n1).getD []) n2 :=
        congrArg Prod.snd h2
      subst hadj2
      obtain ⟨q, hq, hqb⟩ := List.mem_map.mp hb
      have hbn2 : b ≠ n2 := by
        rw [← hqb]
        exact alErase_mem_ne _ _ _ hq
      refine ⟨?_, fun hc => hbn2 hc.2⟩
      rw [mem_edgesList]
      cases hx : alGet g.edges n1 with
      | none =>
        rw [hx] at hq
        simp [alErase] at hq
      | some adj0 =>
        rw [hx] at hq
        simp only [Option.getD_some] at hq
        refine ⟨adj0, ?_, List.mem_map.mpr ⟨q, alErase_subset _ _ _ hq, hqb⟩⟩
        rw [ha]
        exact alGet_mem _ _ _ hx
  case isFalse => simp at h

theorem mem_edgesList_removeEdgesSeq (l : List (NodeId × NodeId))
    (g g2 : PGraph) (h : g.removeEdgesSeq l = some g2) (a b : NodeId)
    (hm : (a, b) ∈ g2.edgesList) :
    (a, b) ∈ g.edgesList ∧ (a, b) ∉ l := by
  induction l generalizing g with
  | nil =>
    rw [removeEdgesSeq_nil] at h
    simp only [Option.some_inj] at h
    subst h
    simp [hm]
  | cons e t ih =>
    rw [removeEdgesSeq_cons] at h
    cases hre : g.remove_edge e.1 e.2 with
    | none => rw [hre] at h; simp at h
    | some g1 =>
      rw [hre] at h
      simp only [Option.some_bind] at h
      obtain ⟨hmem1, hnot1⟩ := ih g1 h
      obtain ⟨hmem0, hne0⟩ := mem_edgesList_remove_edge g e.1 e.2 g1 hre a b hmem1
      refine ⟨hmem0, ?_⟩
      simp only [List.mem_cons]
      rintro (hc | hc)
      · apply hne0
        constructor
        · exact congrArg Prod.fst hc
        · exact congrArg Prod.snd hc
      · exact hnot1 hc

theorem remove_edge_nodes_eq (g : PGraph) (n1 n2 : NodeId) (g2 : PGraph)
    (h : g.remove_edge n1 n2 = some g2) : g2.nodes = g.nodes := by
  unfold PGraph.remove_edge at h
  split at h
  · simp only [Option.some_inj] at h
    subst h
    rfl
  · simp at h

theorem removeEdgesSeq_nodes (l : List (NodeId × NodeId)) (g g2 : PGraph)
    (h : g.removeEdgesSeq l = some g2) : g2.nodes = g.nodes := by
  induction l generalizing g with
  | nil =>
    rw [removeEdgesSeq_nil] at h
    simp only [Option.some_inj] at h
    subst h
    rfl
  | cons e t ih =>
    rw [removeEdgesSeq_cons] at h
    cases hre : g.remove_edge e.1 e.2 with
    | none => rw [hre] at h; simp at h
    | some g1 =>
      rw [hre] at h
      simp only [Option.some_bind] at h
      rw [ih g1 h, remove_edge_nodes_eq g e.1 e.2 g1 hre]

theorem remove_node_chars (g : PGraph) (n : NodeId) (re : Bool) (g2 : PGraph)
    (h : g.remove_node n re = some g2) :
    (∀ m, alGet g2.nodes m = if m = n then none else alGet g.nodes m) ∧
    (∀ a b, (a, b) ∈ g2.edgesList →
      (a, b) ∈ g.edgesList ∧ ¬(a = n ∨ b = n)) := by
  unfold PGraph.remove_node at h
  split at h
  case isFalse => simp at h
  case isTrue hn =>
    split at h
    case isTrue => simp at h
    case isFalse =>
      cases hseq : g.removeEdgesSeq
          (g.edgesList.filter (fun e => e.1 == n || e.2 == n)) with
      | none => rw [hseq] at h; simp at h
      | some gm =>
        rw [hseq] at h
        simp only [Option.map_some', Option.some_inj] at h
        subst h
        have hnodes : gm.nodes = g.nodes := removeEdgesSeq_nodes _ _ _ hseq
        constructor
        · intro m
          simp only [alGet_alErase, hnodes]
        · intro a b hm
          obtain ⟨hmem, hnot⟩ :=
            mem_edgesList_removeEdgesSeq _ _ _ hseq a b hm
          refine ⟨hmem, fun hc => hnot ?_⟩
          rw [List.mem_filter]
          refine ⟨hmem, ?_⟩
          rcases hc with hc | hc <;> subst hc <;> simp

theorem add_node_hasNode_mono (g : PGraph) (n : NodeId) (attrs : NAttrs)
    (m : NodeId) (h : g.hasNode m = true) :
    (g.add_node n attrs).hasNode m = true := by
  unfold PGraph.hasNode PGraph.add_node at *
  simp only [alGet_alSet]
  by_cases hm : m = n <;> simp [hm, h]

theorem runGraphOp_edgesClosed (g0 : PGraph) (op : GraphOp) (g1 : PGraph)
    (h : runGraphOp g0 op = some g1)
    (h0 : ∀ e ∈ g0.edgesList, g0.hasNode e.1 = true ∧ g0.hasNode e.2 = true) :
    ∀ e ∈ g1.edgesList, g1.hasNode e.1 = true ∧ g1.hasNode e.2 = true := by
  cases op with
  | addNode n attrs =>
    simp only [runGraphOp, Option.some_inj] at h
    subst h
    intro e he
    have he0 : e ∈ g0.edgesList := he
    exact ⟨add_node_hasNode_mono _ _ _ _ (h0 e he0).1,
      add_node_hasNode_mono _ _ _ _ (h0 e he0).2⟩
  | addEdge n1 n2 attrs =>
    simp only [runGraphOp, Option.some_inj] at h
    subst h
    intro e he
    obtain ⟨a, b⟩ := e
    rcases mem_edgesList_add_edge g0 n1 n2 attrs a b he with hold | ⟨ha, hb⟩
    · exact ⟨(add_edge_hasNode g0 n1 n2 attrs a).mpr (Or.inl (h0 _ hold).1),
        (add_edge_hasNode g0 n1 n2 attrs b).mpr (Or.inl (h0 _ hold).2)⟩
    · exact ⟨(add_edge_hasNode g0 n1 n2 attrs a).mpr (Or.inr (Or.inl ha)),
        (add_edge_hasNode g0 n1 n2 attrs b).mpr (Or.inr (Or.inr hb))⟩
  | removeEdge n1 n2 =>
    simp only [runGraphOp] at h
    intro e he
    obtain ⟨a, b⟩ := e
    have hnodes : g1.nodes = g0.nodes := remove_edge_nodes_eq _ _ _ _ h
    obtain ⟨hold, _⟩ := mem_edgesList_remove_edge _ _ _ _ h a b he
    unfold PGraph.hasNode
    rw [hnodes]
    exact h0 _ hold
  | removeNode n re =>
    simp only [runGraphOp] at h
    intro e he
    obtain ⟨a, b⟩ := e
    obtain ⟨hnodes, hedges⟩ := remove_node_chars _ _ _ _ h
    obtain ⟨hold, hne⟩ := hedges a b he
    unfold PGraph.hasNode
    rw [hnodes a, hnodes b]
    rw [if_neg (fun hc => hne (Or.inl hc)), if_neg (fun hc => hne (Or.inr hc))]
    exact h0 _ hold

theorem runGraphOps_edgesClosed (ops : List GraphOp) (g0 g : PGraph)
    (h0 : ∀ e ∈ g0.edgesList, g0.hasNode e.1 = true ∧ g0.hasNode e.2 = true)
    (h : runGraphOps ops g0 = some g) :
    ∀ e ∈ g.edgesList, g.hasNode e.1 = true ∧ g.hasNode e.2 = true := by
  induction ops generalizing g0 with
  | nil =>
    simp only [runGraphOps, List.foldlM_nil, Option.pure_def,
      Option.some_inj] at h
    subst h
    exact h0
  | cons op t ih =>
    simp only [runGraphOps, List.foldlM_cons] at h
    cases hop : runGraphOp g0 op with
    | none => rw [hop] at h; exact absurd h (by simp)
    | some g1 =>
      rw [hop] at h
      exact ih g1 (runGraphOp_edgesClosed g0 op g1 hop h0) h

/-- C10: `Graph.add_edge` never fails on absent endpoints — it first
inserts them as nodes — and along every successful sequence of generic
graph operations starting from the empty graph, both endpoints of every
edge are nodes of the graph. -/
theorem c10_edge_endpoints_invariant :
    (∀ (g : PGraph) (n1 n2 : NodeId) (attrs : EAttrs),
      (g.add_edge n1 n2 attrs).hasNode n1 = true ∧
      (g.add_edge n1 n2 attrs).hasNode n2 = true) ∧
    (∀ (ops : List GraphOp) (g : PGraph),
      runGraphOps ops PGraph.empty = some g →
      ∀ e ∈ g.edgesList, g.hasNode e.1 = true ∧ g.hasNode e.2 = true) := by
  constructor
  · intro g n1 n2 attrs
    exact ⟨(add_edge_hasNode g n1 n2 attrs n1).mpr (Or.inr (Or.inl rfl)),
      (add_edge_hasNode g n1 n2 attrs n2).mpr (Or.inr (Or.inr rfl))⟩
  · intro ops g h
    exact runGraphOps_edgesClosed ops PGraph.empty g (by simp [PGraph.empty,
      PGraph.edgesList]) h

/-- Witness for C10: a concrete run adding one edge between two absent
nodes from the empty graph. -/
theorem c10_edge_endpoints_invariant_witness :
    ((PGraph.empty.add_edge (.str "a") (.str "b")
        ⟨none, none, none⟩).hasNode (NodeId.str "a") = true ∧
     (PGraph.empty.add_edge (.str "a") (.str "b")
        ⟨none, none, none⟩).hasNode (NodeId.str "b") = true) :=
  c10_edge_endpoints_invariant.2
    [.addEdge (.str "a") (.str "b") ⟨none, none, none⟩] _ rfl
    (NodeId.str "a", NodeId.str "b") (by decide)

theorem guessVertexId_hasNode (t : TopologyGraph) (nodeName : String)
    (ep : NetPort) (v : NodeId) (h : guessVertexId t nodeName ep = some v) :
    t.g.hasNode v = true := by
  unfold guessVertexId at h
  split_ifs at h with h1 h2
  · simp only [Option.some_inj] at h
    subst h
    exact (Bool.and_eq_true .. |>.mp h1).1
  · simp only [Option.some_inj] at h
    subst h
    exact (Bool.and_eq_true .. |>.mp h2).1

theorem guessVertexId_congr (t1 t2 : TopologyGraph)
    (h : t1.g.nodes = t2.g.nodes) (nodeName : String) (ep : NetPort) :
    guessVertexId t1 nodeName ep = guessVertexId t2 nodeName ep := by
  unfold guessVertexId PGraph.hasNode
  rw [h]

theorem get_link_nodes_congr (t1 t2 : TopologyGraph)
    (h : t1.g.nodes = t2.g.nodes) (l : Link) :
    t1._get_link_nodes l = t2._get_link_nodes l := by
  unfold TopologyGraph._get_link_nodes
  rw [guessVertexId_congr t1 t2 h, guessVertexId_congr t1 t2 h]

/-- C7: on a topology where both endpoints of a link resolve to present
vertices, `add_link` with `bidir` adds the two symmetric LINK edges, both
marked `bidir = true`, and a subsequent `remove_link` removes both,
leaving no edge between the endpoints in either direction. -/
theorem c7_bidirectional_link (t : TopologyGraph) (l : Link) (v1 v2 : NodeId)
    (hres : t._get_link_nodes l = (some v1, some v2)) :
    ∃ t1, t.add_link l true = some t1 ∧
      t1.g.get_edge_data v1 v2 = some ⟨some "link", some l, some true⟩ ∧
      t1.g.get_edge_data v2 v1 = some ⟨some "link", some l, some true⟩ ∧
      ∃ t2, t1.remove_link l = some t2 ∧
        t2.g.has_edge v1 v2 = false ∧ t2.g.has_edge v2 v1 = false := by
  have hg1 : guessVertexId t l.start_node l.start_port = some v1 :=
    congrArg Prod.fst hres
  have hg2 : guessVertexId t l.end_node l.end_port = some v2 :=
    congrArg Prod.snd hres
  have hn1 : t.g.hasNode v1 = true := guessVertexId_hasNode _ _ _ _ hg1
  have hn2 : t.g.hasNode v2 = true := guessVertexId_hasNode _ _ _ _ hg2
  have hadd : t.add_link l true =
      some ⟨(t.g.add_edge v1 v2 ⟨some "link", some l, some true⟩).add_edge
        v2 v1 ⟨some "link", some l, some true⟩⟩ := by
    unfold TopologyGraph.add_link
    rw [hres]
    simp [hn1, hn2]
  have hged12 : ((t.g.add_edge v1 v2 ⟨some "link", some l, some true⟩).add_edge
      v2 v1 ⟨some "link", some l, some true⟩).get_edge_data v1 v2 =
      some ⟨some "link", some l, some true⟩ := by
    rw [get_edge_data_add_edge, get_edge_data_add_edge]
    by_cases h12 : v1 = v2 <;> simp [h12]
  have hged21 : ((t.g.add_edge v1 v2 ⟨some "link", some l, some true⟩).add_edge
      v2 v1 ⟨some "link", some l, some true⟩).get_edge_data v2 v1 =
      some ⟨some "link", some l, some true⟩ := by
    rw [get_edge_data_add_edge]
    simp
  have hnodes1 : ((t.g.add_edge v1 v2 ⟨some "link", some l, some true⟩).add_edge
      v2 v1 ⟨some "link", some l, some true⟩).nodes = t.g.nodes := by
    rw [add_edge_nodes_of_present _ _ _ _
      ((add_edge_hasNode _ _ _ _ _).mpr (Or.inl hn2))
      ((add_edge_hasNode _ _ _ _ _).mpr (Or.inl hn1))]
    exact add_edge_nodes_of_present _ _ _ _ hn1 hn2
  refine ⟨_, hadd, hged12, hged21, ?_⟩
  have hresl : (⟨(t.g.add_edge v1 v2 ⟨some "link", some l, some true⟩).add_edge
      v2 v1 ⟨some "link", some l, some true⟩⟩ : TopologyGraph)._get_link_nodes l =
      (some v1, some v2) :=
    (get_link_nodes_congr _ t hnodes1 l).trans hres
  obtain ⟨g1, hre1, hre1n, hre1spec⟩ := remove_edge_spec
    ((t.g.add_edge v1 v2 ⟨some "link", some l, some true⟩).add_edge
      v2 v1 ⟨some "link", some l, some true⟩) v1 v2
    (by simp [PGraph.has_edge, hged12])
  by_cases h12 : v1 = v2
  · have hhe21 : g1.has_edge v2 v1 = false := by
      simp [PGraph.has_edge, hre1spec, h12]
    have hrem : TopologyGraph.remove_link
        ⟨(t.g.add_edge v1 v2 ⟨some "link", some l, some true⟩).add_edge
          v2 v1 ⟨some "link", some l, some true⟩⟩ l = some ⟨g1⟩ := by
      unfold TopologyGraph.remove_link TopologyGraph.has_link
        TopologyGraph.get_link
      rw [hresl]
      simp [PGraph.has_edge, hged12, hre1, hhe21]
      intro hc
      unfold PGraph.has_edge at hhe21
      simp [hhe21] at hc
    refine ⟨⟨g1⟩, hrem, ?_, ?_⟩
    · simp [PGraph.has_edge, hre1spec]
    · simp [PGraph.has_edge, hre1spec, h12]
  · have hhe21 : g1.has_edge v2 v1 = true := by
      have : ¬(v2 = v1 ∧ v1 = v2) := fun hc => h12 hc.2
      simp [PGraph.has_edge, hre1spec, this, hged21]
    obtain ⟨g2, hre2, hre2n, hre2spec⟩ := remove_edge_spec g1 v2 v1 hhe21
    have hrem : TopologyGraph.remove_link
        ⟨(t.g.add_edge v1 v2 ⟨some "link", some l, some true⟩).add_edge
          v2 v1 ⟨some "link", some l, some true⟩⟩ l = some ⟨g2⟩ := by
      unfold TopologyGraph.remove_link TopologyGraph.has_link
        TopologyGraph.get_link
      rw [hresl]
      simp [PGraph.has_edge, hged12, hre1, hhe21, hre2]
      intro hc
      unfold PGraph.has_edge at hhe21
      rw [hc] at hhe21
      simp at hhe21
    refine ⟨⟨g2⟩, hrem, ?_, ?_⟩
    · have : ¬(v1 = v2 ∧ v2 = v1) := fun hc => h12 hc.1
      simp [PGraph.has_edge, hre2spec, this, hre1spec]
    · simp [PGraph.has_edge, hre2spec]

/-- Witness for C7: a concrete topology holding two switch ports and the
link between them. -/
theorem c7_bidirectional_link_witness :
    ∃ t1,
      (⟨⟨[(.str "s1-1", ⟨some "PORT", none⟩),
          (.str "s2-1", ⟨some "PORT", none⟩)], []⟩⟩ :
        TopologyGraph).add_link ⟨"s1", ⟨"", 1⟩, "s2", ⟨"", 1⟩⟩ true =
          some t1 ∧
      t1.g.get_edge_data (.str "s1-1") (.str "s2-1") =
        some ⟨some "link", some ⟨"s1", ⟨"", 1⟩, "s2", ⟨"", 1⟩⟩, some true⟩ ∧
      t1.g.get_edge_data (.str "s2-1") (.str "s1-1") =
        some ⟨some "link", some ⟨"s1", ⟨"", 1⟩, "s2", ⟨"", 1⟩⟩, some true⟩ ∧
      ∃ t2, t1.remove_link ⟨"s1", ⟨"", 1⟩, "s2", ⟨"", 1⟩⟩ = some t2 ∧
        t2.g.has_edge (.str "s1-1") (.str "s2-1") = false ∧
        t2.g.has_edge (.str "s2-1") (.str "s1-1") = false :=
  c7_bidirectional_link _ _ (.str "s1-1") (.str "s2-1") (by decide)

theorem alGet_eq_none_iff {α β : Type} [DecidableEq α] (l : List (α × β))
    (k : α) : alGet l k = none ↔ k ∉ l.map Prod.fst := by
  rw [← alGet_isSome_iff_mem_keys]
  cases alGet l k <;> simp

theorem alErase_of_not_mem {α β : Type} [DecidableEq α] (l : List (α × β))
    (k : α) (h : k ∉ l.map Prod.fst) : alErase l k = l := by
  induction l with
  | nil => rfl
  | cons hd tl ih =>
    obtain ⟨k1, v⟩ := hd
    simp only [List.map_cons, List.mem_cons] at h
    push_neg at h
    simp only [alErase]
    rw [if_neg (fun hc => h.1 hc.symm), ih h.2]

theorem alGet_of_mem_nodup {α β : Type} [DecidableEq α] (l : List (α × β))
    (k : α) (v : β) (hnd : (l.map Prod.fst).Nodup) (h : (k, v) ∈ l) :
    alGet l k = some v := by
  induction l with
  | nil => simp at h
  | cons hd tl ih =>
    obtain ⟨k1, v1⟩ := hd
    simp only [List.map_cons, List.nodup_cons] at hnd
    rcases List.mem_cons.mp h with h2 | h2
    · rw [Prod.mk.injEq] at h2
      obtain ⟨hk, hv⟩ := h2
      subst hk
      subst hv
      simp [alGet]
    · have hne : ¬ k1 = k := fun hc => hnd.1 (by
        rw [hc]
        exact List.mem_map.mpr ⟨(k, v), h2, rfl⟩)
      simp only [alGet, if_neg hne]
      exact ih hnd.2 h2

theorem remove_edge_edgesWF (g : PGraph) (n1 n2 : NodeId) (g2 : PGraph)
    (h : g.remove_edge n1 n2 = some g2) (hWF : g.edgesWF) : g2.edgesWF := by
  unfold PGraph.remove_edge at h
  split at h
  case isFalse => simp at h
  case isTrue =>
    simp only [Option.some_inj] at h
    subst h
    refine ⟨alSet_keys_nodup _ _ _ hWF.1, ?_⟩
    intro p hp
    rcases alSet_mem _ _ _ _ hp with h2 | h2
    · exact hWF.2 p h2
    · rw [h2]
      cases hx : alGet g.edges n1 with
      | none => simp [alErase]
      | some adj0 =>
        simp only [Option.getD_some]
        exact alErase_keys_nodup _ _ (hWF.2 _ (alGet_mem _ _ _ hx))

theorem add_edge_edgesWF (g : PGraph) (n1 n2 : NodeId) (attrs : EAttrs)
    (hWF : g.edgesWF) : (g.add_edge n1 n2 attrs).edgesWF := by
  refine ⟨?_, ?_⟩
  · rw [add_edge_edges]
    exact alSet_keys_nodup _ _ _ hWF.1
  · intro p hp
    rw [add_edge_edges] at hp
    rcases alSet_mem _ _ _ _ hp with h2 | h2
    · exact hWF.2 p h2
    · rw [h2]
      apply alSet_keys_nodup
      cases hx : alGet g.edges n1 with
      | none => simp
      | some adj0 =>
        simp only [Option.getD_some]
        exact hWF.2 _ (alGet_mem _ _ _ hx)

theorem removeOut_spec (n : NodeId) :
    ∀ (adj : List (NodeId × EAttrs)) (g : PGraph), g.edgesWF →
      alGet g.edges n = some adj →
      ∃ g1, g.removeEdgesSeq (adj.map (fun q => (n, q.1))) = some g1 ∧
        g1.nodes = g.nodes ∧ g1.edgesWF ∧ alGet g1.edges n = some [] ∧
        (∀ k, k ≠ n → alGet g1.edges k = alGet g.edges k) := by
  intro adj
  induction adj with
  | nil =>
    intro g hWF hget
    exact ⟨g, by simp [removeEdgesSeq_nil], rfl, hWF, hget, fun k _ => rfl⟩
  | cons q rest ih =>
    intro g hWF hget
    obtain ⟨qk, qe⟩ := q
    have hadjnd : (((qk, qe) :: rest).map Prod.fst).Nodup :=
      hWF.2 _ (alGet_mem _ _ _ hget)
    simp only [List.map_cons, List.nodup_cons] at hadjnd
    have hhe : g.has_edge n qk = true := by
      unfold PGraph.has_edge PGraph.get_edge_data
      rw [hget]
      simp [alGet]
    have hre : g.remove_edge n qk =
        some { g with edges := alSet g.edges n rest } := by
      unfold PGraph.remove_edge
      rw [if_pos hhe]
      have he2 : alErase ((alGet g.edges n).getD []) qk = rest := by
        rw [hget]
        simp [alErase, alErase_of_not_mem rest qk hadjnd.1]
      simp only [he2]
    have hWF2 : ({ g with edges := alSet g.edges n rest } : PGraph).edgesWF := by
      refine ⟨alSet_keys_nodup _ _ _ hWF.1, ?_⟩
      intro p hp
      rcases alSet_mem _ _ _ _ hp with h2 | h2
      · exact hWF.2 p h2
      · rw [h2]
        exact hadjnd.2
    have hget2 : alGet ({ g with edges := alSet g.edges n rest } :
        PGraph).edges n = some rest := by
      show alGet (alSet g.edges n rest) n = some rest
      rw [alGet_alSet, if_pos rfl]
    obtain ⟨g1, hseq, hnodes, hWF1, hget1, hpres⟩ := ih _ hWF2 hget2
    refine ⟨g1, ?_, hnodes, hWF1, hget1, ?_⟩
    · rw [List.map_cons, removeEdgesSeq_cons]
      simp only [hre, Option.some_bind]
      exact hseq
    · intro k hk
      rw [hpres k hk]
      show alGet (alSet g.edges n rest) k = alGet g.edges k
      rw [alGet_alSet, if_neg hk]

theorem out_phase (g : PGraph) (n : NodeId) (hWF : g.edgesWF) :
    ∃ g1, g.removeEdgesSeq (g.out_edges n) = some g1 ∧
      g1.nodes = g.nodes ∧ g1.edgesWF ∧
      (alGet g1.edges n = none ∨ alGet g1.edges n = some []) ∧
      (∀ k, k ≠ n → alGet g1.edges k = alGet g.edges k) := by
  cases hx : alGet g.edges n with
  | none =>
    refine ⟨g, ?_, rfl, hWF, Or.inl hx, fun k _ => rfl⟩
    unfold PGraph.out_edges
    rw [hx]
    simp [removeEdgesSeq_nil]
  | some adj =>
    obtain ⟨g1, hseq, hnodes, hWF1, hget1, hpres⟩ :=
      removeOut_spec n adj g hWF hx
    refine ⟨g1, ?_, hnodes, hWF1, Or.inr hget1, hpres⟩
    unfold PGraph.out_edges
    rw [hx]
    simp only [Option.getD_some]
    exact hseq

theorem filterMapIf_sublist {α β : Type} (c : α × β → Bool)
    (l : List (α × β)) :
    (l.filterMap (fun p => if c p then some p.1 else none)).Sublist
      (l.map Prod.fst) := by
  induction l with
  | nil => simp
  | cons hd tl ih =>
    by_cases hc : c hd = true
    · simp only [List.filterMap_cons, List.map_cons, hc, if_true]
      exact ih.cons₂ _
    · simp only [List.filterMap_cons, List.map_cons, if_neg hc]
      exact ih.cons _

theorem inKeys_mem {α β : Type} [DecidableEq α] (l : List (α × β))
    (c : α × β → Bool) (hnd : (l.map Prod.fst).Nodup) (k : α) :
    k ∈ l.filterMap (fun p => if c p then some p.1 else none) ↔
      ∃ v, alGet l k = some v ∧ c (k, v) = true := by
  rw [List.mem_filterMap]
  constructor
  · rintro ⟨p, hp, hpk⟩
    by_cases hc : c p = true
    · rw [if_pos hc, Option.some_inj] at hpk
      have hget : alGet l p.1 = some p.2 :=
        alGet_of_mem_nodup l p.1 p.2 hnd (by simpa using hp)
      refine ⟨p.2, ?_, ?_⟩
      · rw [← hpk]
        exact hget
      · rw [← hpk]
        exact hc
    · rw [if_neg hc] at hpk
      exact absurd hpk (by simp)
  · rintro ⟨v, hget, hc⟩
    exact ⟨(k, v), alGet_mem _ _ _ hget, by rw [if_pos hc]⟩

theorem removeIn_loop (n : NodeId) :
    ∀ (ks : List NodeId) (g : PGraph), g.edgesWF → ks.Nodup →
      (∀ k ∈ ks, ∃ adj, alGet g.edges k = some adj ∧
        (alGet adj n).isSome = true) →
      ∃ g2, g.removeEdgesSeq (ks.map (fun k => (k, n))) = some g2 ∧
        g2.nodes = g.nodes ∧ g2.edgesWF ∧
        (∀ k, k ∈ ks → alGet g2.edges k =
          (alGet g.edges k).map (fun adj => alErase adj n)) ∧
        (∀ k, k ∉ ks → alGet g2.edges k = alGet g.edges k) := by
  intro ks
  induction ks with
  | nil =>
    intro g hWF _ _
    exact ⟨g, by simp [removeEdgesSeq_nil], rfl, hWF, by simp, fun _ _ => rfl⟩
  | cons k rest ih =>
    intro g hWF hnd hks
    simp only [List.nodup_cons] at hnd
    obtain ⟨adj, hget, hsome⟩ := hks k (List.mem_cons_self k rest)
    have hhe : g.has_edge k n = true := by
      unfold PGraph.has_edge PGraph.get_edge_data
      rw [hget]
      simpa using hsome
    have hre : g.remove_edge k n =
        some { g with edges := alSet g.edges k (alErase adj n) } := by
      unfold PGraph.remove_edge
      rw [if_pos hhe]
      have he2 : (alGet g.edges k).getD [] = adj := by
        rw [hget]
        rfl
      simp only [he2]
    have hWF2 : ({ g with edges := alSet g.edges k (alErase adj n) } :
        PGraph).edgesWF := by
      refine ⟨alSet_keys_nodup _ _ _ hWF.1, ?_⟩
      intro p hp
      rcases alSet_mem _ _ _ _ hp with h2 | h2
      · exact hWF.2 p h2
      · rw [h2]
        exact alErase_keys_nodup _ _ (hWF.2 _ (alGet_mem _ _ _ hget))
    have hpres2 : ∀ k2, k2 ≠ k →
        alGet ({ g with edges := alSet g.edges k (alErase adj n) } :
          PGraph).edges k2 = alGet g.edges k2 := by
      intro k2 hk2
      show alGet (alSet g.edges k (alErase adj n)) k2 = alGet g.edges k2
      rw [alGet_alSet, if_neg hk2]
    obtain ⟨g2, hseq, hnodes, hWF1, hin, hout⟩ := ih _ hWF2 hnd.2 (by
      intro k2 hk2
      have hne : k2 ≠ k := fun hc => hnd.1 (hc ▸ hk2)
      rw [hpres2 k2 hne]
      exact hks k2 (List.mem_cons_of_mem _ hk2))
    refine ⟨g2, ?_, by rw [hnodes], hWF1, ?_, ?_⟩
    · rw [List.map_cons, removeEdgesSeq_cons]
      simp only [hre, Option.some_bind]
      exact hseq
    · intro k2 hk2
      rcases List.mem_cons.mp hk2 with h2 | h2
      · rw [h2, hout k hnd.1]
        show alGet (alSet g.edges k (alErase adj n)) k =
          (alGet g.edges k).map (fun adj => alErase adj n)
        rw [alGet_alSet, if_pos rfl, hget]
        rfl
      · have hne : k2 ≠ k := fun hc => hnd.1 (hc ▸ h2)
        rw [hin k2 h2, hpres2 k2 hne]
    · intro k2 hk2
      simp only [List.mem_cons] at hk2
      push_neg at hk2
      rw [hout k2 hk2.2, hpres2 k2 hk2.1]

theorem in_phase (g1 : PGraph) (n : NodeId) (hWF : g1.edgesWF)
    (hn : alGet g1.edges n = none ∨ alGet g1.edges n = some []) :
    ∃ g2, g1.removeEdgesSeq (g1.in_edges n) = some g2 ∧
      g2.nodes = g1.nodes ∧ g2.edgesWF ∧
      (∀ a b, g2.get_edge_data a b =
        if b = n then none else g1.get_edge_data a b) ∧
      alGet g2.edges n = alGet g1.edges n := by
  have hin2 : ∀ (es : List (NodeId × List (NodeId × EAttrs))),
      es.filterMap
        (fun p => if (alGet p.2 n).isSome then some (p.1, n) else none) =
      (es.filterMap
        (fun p => if (alGet p.2 n).isSome then some p.1 else none)).map
        (fun k => (k, n)) := by
    intro es
    induction es with
    | nil => rfl
    | cons hd tl ih =>
      by_cases hc : (alGet hd.2 n).isSome = true
      · simp [List.filterMap_cons, hc, ih]
      · simp [List.filterMap_cons, hc, ih]
  have hin3 : g1.in_edges n =
      (g1.edges.filterMap
        (fun p => if (alGet p.2 n).isSome then some p.1 else none)).map
        (fun k => (k, n)) := by
    unfold PGraph.in_edges
    exact hin2 g1.edges
  have hksnd : (g1.edges.filterMap
      (fun p => if (alGet p.2 n).isSome then some p.1 else none)).Nodup :=
    List.Nodup.sublist (filterMapIf_sublist _ g1.edges) hWF.1
  have hmem : ∀ k, k ∈ g1.edges.filterMap
      (fun p => if (alGet p.2 n).isSome then some p.1 else none) ↔
      ∃ adj, alGet g1.edges k = some adj ∧ (alGet adj n).isSome = true :=
    fun k => inKeys_mem g1.edges (fun p => (alGet p.2 n).isSome) hWF.1 k
  obtain ⟨g2, hseq, hnodes, hWF2, hinmem, houtmem⟩ :=
    removeIn_loop n (g1.edges.filterMap
      (fun p => if (alGet p.2 n).isSome then some p.1 else none)) g1 hWF
      hksnd (fun k hk => (hmem k).mp hk)
  refine ⟨g2, ?_, hnodes, hWF2, ?_, ?_⟩
  · rw [hin3]
    exact hseq
  · intro a b
    by_cases ha : a ∈ g1.edges.filterMap
        (fun p => if (alGet p.2 n).isSome then some p.1 else none)
    · obtain ⟨adj, hget, hsome⟩ := (hmem a).mp ha
      unfold PGraph.get_edge_data
      rw [hinmem a ha, hget]
      simp only [Option.map_some', Option.some_bind]
      rw [alGet_alErase]
    · unfold PGraph.get_edge_data
      rw [houtmem a ha]
      by_cases hb : b = n
      · rw [if_pos hb]
        cases hx : alGet g1.edges a with
        | none => rfl
        | some adj =>
          have hno : ¬ (alGet adj n).isSome = true :=
            fun hc => ha ((hmem a).mpr ⟨adj, hx, hc⟩)
          simp only [Option.some_bind]
          rw [hb]
          cases hy : alGet adj n with
          | none => rfl
          | some v => exact absurd (by rw [hy]; rfl) hno
      · rw [if_neg hb]
  · have hnks : n ∉ g1.edges.filterMap
        (fun p => if (alGet p.2 n).isSome then some p.1 else none) := by
      intro hc
      obtain ⟨adj, hget, hsome⟩ := (hmem n).mp hc
      rcases hn with h | h
      · rw [h] at hget
        exact absurd hget (by simp)
      · rw [h, Option.some_inj] at hget
        rw [← hget] at hsome
        simp [alGet] at hsome
    exact houtmem n hnks

theorem topo_remove_node_spec (t : TopologyGraph) (n : NodeId) (nt : String)
    (info : NAttrs) (hWF : t.g.edgesWF) (hn : alGet t.g.nodes n = some info)
    (hty : (info.ntype == some nt) = true) :
    ∃ t2, t._remove_node n nt = some t2 ∧
      t2.g.nodes = alErase t.g.nodes n ∧ t2.g.edgesWF ∧
      (∀ a b, t2.g.get_edge_data a b =
        if a = n ∨ b = n then none else t.g.get_edge_data a b) := by
  obtain ⟨g1, hseq1, hnodes1, hWF1, hg1n, hpres1⟩ := out_phase t.g n hWF
  obtain ⟨g2, hseq2, hnodes2, hWF2, hged2, hg2n⟩ := in_phase g1 n hWF1 hg1n
  have hhas : g2.hasNode n = true := by
    unfold PGraph.hasNode
    rw [hnodes2, hnodes1, hn]
    rfl
  have hfilt : g2.edgesList.filter (fun e => e.1 == n || e.2 == n) = [] := by
    rw [List.eq_nil_iff_forall_not_mem]
    intro e he
    rw [List.mem_filter] at he
    obtain ⟨hmem, hcond⟩ := he
    obtain ⟨a, b⟩ := e
    rw [mem_edgesList] at hmem
    obtain ⟨adj, hadj, hb⟩ := hmem
    simp only [Bool.or_eq_true, beq_iff_eq] at hcond
    rcases hcond with hc | hc
    · subst hc
      have hget : alGet g2.edges a = some adj :=
        alGet_of_mem_nodup _ _ _ hWF2.1 hadj
      rw [hg2n] at hget
      rcases hg1n with h | h
      · rw [h] at hget
        exact absurd hget (by simp)
      · rw [h, Option.some_inj] at hget
        rw [← hget] at hb
        simp at hb
    · subst hc
      have hget : alGet g2.edges a = some adj :=
        alGet_of_mem_nodup _ _ _ hWF2.1 hadj
      have hged : g2.get_edge_data a b = none := by
        rw [hged2 a b]
        simp
      unfold PGraph.get_edge_data at hged
      rw [hget] at hged
      simp only [Option.some_bind] at hged
      rw [alGet_eq_none_iff] at hged
      exact hged hb
  have hrn : g2.remove_node n true =
      some { g2 with nodes := alErase g2.nodes n } := by
    unfold PGraph.remove_node
    rw [hfilt]
    simp [hhas, removeEdgesSeq_nil]
  refine ⟨⟨{ g2 with nodes := alErase g2.nodes n }⟩, ?_, ?_, hWF2, ?_⟩
  · unfold TopologyGraph._remove_node
    rw [hn]
    simp only [Option.bind_eq_bind, Option.some_bind]
    rw [if_pos hty, hseq1]
    simp only [Option.some_bind]
    rw [hseq2]
    simp only [Option.some_bind]
    rw [hrn]
    simp only [Option.some_bind, Option.pure_def]
  · show alErase g2.nodes n = alErase t.g.nodes n
    rw [hnodes2, hnodes1]
  · intro a b
    have hsame : (⟨{ g2 with nodes := alErase g2.nodes n }⟩ :
        TopologyGraph).g.get_edge_data a b = g2.get_edge_data a b := rfl
    rw [hsame, hged2 a b]
    by_cases hb : b = n
    · rw [if_pos hb, if_pos (Or.inr hb)]
    · rw [if_neg hb]
      by_cases ha2 : a = n
      · rw [if_pos (Or.inl ha2)]
        unfold PGraph.get_edge_data
        rcases hg1n with h | h
        · rw [ha2, h]
          rfl
        · rw [ha2, h]
          simp [alGet]
      · rw [if_neg (by
            intro hc
            rcases hc with hc | hc
            · exact ha2 hc
            · exact hb hc)]
        unfold PGraph.get_edge_data
        rw [hpres1 a ha2]

theorem addHostFold (hid : NodeId) (ia : EAttrs) :
    ∀ (l : List (NodeId × NetPort)) (g gf : PGraph),
      gf = l.foldl (fun gg pi =>
        ((gg.add_node pi.1 ⟨some "INTERFACE", some (.iface pi.2)⟩).add_edge
          hid pi.1 ia).add_edge pi.1 hid ia) g →
      g.edgesWF → (l.map Prod.fst).Nodup → (∀ pi ∈ l, pi.1 ≠ hid) →
      (alGet g.nodes hid).isSome = true →
      gf.edgesWF ∧ alGet gf.nodes hid = alGet g.nodes hid ∧
      (∀ pi ∈ l, alGet gf.nodes pi.1 =
        some ⟨some "INTERFACE", some (.iface pi.2)⟩) ∧
      (∀ m, m ∉ l.map Prod.fst → alGet gf.nodes m = alGet g.nodes m) := by
  intro l
  induction l with
  | nil =>
    intro g gf hgf hWF _ _ _
    subst hgf
    exact ⟨hWF, rfl, by simp, fun m _ => rfl⟩
  | cons pi rest ih =>
    intro g gf hgf hWF hnd hne hhid
    simp only [List.map_cons, List.nodup_cons] at hnd
    have hpi : pi.1 ≠ hid := hne pi (List.mem_cons_self pi rest)
    have h0hid : (g.add_node pi.1
        ⟨some "INTERFACE", some (.iface pi.2)⟩).hasNode hid = true := by
      show (alGet (alSet g.nodes pi.1
        ⟨some "INTERFACE", some (.iface pi.2)⟩) hid).isSome = true
      rw [alGet_alSet, if_neg (fun hc => hpi hc.symm)]
      exact hhid
    have h0pi : (g.add_node pi.1
        ⟨some "INTERFACE", some (.iface pi.2)⟩).hasNode pi.1 = true := by
      show (alGet (alSet g.nodes pi.1
        ⟨some "INTERFACE", some (.iface pi.2)⟩) pi.1).isSome = true
      rw [alGet_alSet, if_pos rfl]
      rfl
    have h1nodes : ((g.add_node pi.1
        ⟨some "INTERFACE", some (.iface pi.2)⟩).add_edge hid pi.1 ia).nodes =
        (g.add_node pi.1 ⟨some "INTERFACE", some (.iface pi.2)⟩).nodes :=
      add_edge_nodes_of_present _ hid pi.1 ia h0hid h0pi
    have h1pi : ((g.add_node pi.1
        ⟨some "INTERFACE", some (.iface pi.2)⟩).add_edge hid pi.1
          ia).hasNode pi.1 = true := by
      show (alGet ((g.add_node pi.1
        ⟨some "INTERFACE", some (.iface pi.2)⟩).add_edge hid pi.1
          ia).nodes pi.1).isSome = true
      rw [h1nodes]
      exact h0pi
    have h1hid : ((g.add_node pi.1
        ⟨some "INTERFACE", some (.iface pi.2)⟩).add_edge hid pi.1
          ia).hasNode hid = true := by
      show (alGet ((g.add_node pi.1
        ⟨some "INTERFACE", some (.iface pi.2)⟩).add_edge hid pi.1
          ia).nodes hid).isSome = true
      rw [h1nodes]
      exact h0hid
    have h2nodes : (((g.add_node pi.1
        ⟨some "INTERFACE", some (.iface pi.2)⟩).add_edge hid pi.1
          ia).add_edge pi.1 hid ia).nodes =
        alSet g.nodes pi.1 ⟨some "INTERFACE", some (.iface pi.2)⟩ := by
      rw [add_edge_nodes_of_present _ pi.1 hid ia h1pi h1hid, h1nodes]
      rfl
    have hWF3 : (((g.add_node pi.1
        ⟨some "INTERFACE", some (.iface pi.2)⟩).add_edge hid pi.1
          ia).add_edge pi.1 hid ia).edgesWF :=
      add_edge_edgesWF _ _ _ _ (add_edge_edgesWF _ _ _ _ hWF)
    have hstep_hid : alGet (((g.add_node pi.1
        ⟨some "INTERFACE", some (.iface pi.2)⟩).add_edge hid pi.1
          ia).add_edge pi.1 hid ia).nodes hid = alGet g.nodes hid := by
      rw [h2nodes, alGet_alSet, if_neg (fun hc => hpi hc.symm)]
    obtain ⟨hWFf, hfhid, hfmem, hfout⟩ := ih _ gf (by rw [hgf]; rfl) hWF3
      hnd.2 (fun pj hj => hne pj (List.mem_cons_of_mem _ hj))
      (by rw [hstep_hid]; exact hhid)
    refine ⟨hWFf, ?_, ?_, ?_⟩
    · rw [hfhid, hstep_hid]
    · intro pj hj
      rcases List.mem_cons.mp hj with h2 | h2
      · rw [h2, hfout pi.1 hnd.1, h2nodes, alGet_alSet, if_pos rfl]
      · exact hfmem pj h2
    · intro m hm
      simp only [List.map_cons, List.mem_cons] at hm
      push_neg at hm
      rw [hfout m hm.2, h2nodes, alGet_alSet, if_neg hm.1]

theorem add_host_spec (t : TopologyGraph) (host : Host) (hWF : t.g.edgesWF)
    (hfresh : t.g.hasNode (hostNodeId host) = false)
    (hnodup : ((interfacesIterator host).map Prod.fst).Nodup)
    (hne : ∀ pi ∈ interfacesIterator host, pi.1 ≠ hostNodeId host) :
    ∃ t1, t.add_host host = some t1 ∧ t1.g.edgesWF ∧
      alGet t1.g.nodes (hostNodeId host) =
        some ⟨some "host", some (.host host)⟩ ∧
      (∀ pi ∈ interfacesIterator host, alGet t1.g.nodes pi.1 =
        some ⟨some "INTERFACE", some (.iface pi.2)⟩) := by
  have hWF0 : (t.g.add_node (hostNodeId host)
      ⟨some "host", some (.host host)⟩).edgesWF := hWF
  have halg : alGet (t.g.add_node (hostNodeId host)
      ⟨some "host", some (.host host)⟩).nodes (hostNodeId host) =
      some ⟨some "host", some (.host host)⟩ := by
    show alGet (alSet t.g.nodes (hostNodeId host)
      ⟨some "host", some (.host host)⟩) (hostNodeId host) =
      some ⟨some "host", some (.host host)⟩
    rw [alGet_alSet, if_pos rfl]
  have hhid0 : (alGet (t.g.add_node (hostNodeId host)
      ⟨some "host", some (.host host)⟩).nodes (hostNodeId host)).isSome =
      true := by
    rw [halg]
    rfl
  obtain ⟨hWFf, hfhid, hfmem, _⟩ := addHostFold (hostNodeId host)
    ⟨some "internal_link", none, none⟩ (interfacesIterator host)
    (t.g.add_node (hostNodeId host) ⟨some "host", some (.host host)⟩)
    _ rfl hWF0 hnodup hne hhid0
  refine ⟨⟨_⟩, ?_, hWFf, hfhid.trans halg, hfmem⟩
  simp only [TopologyGraph.add_host, hfresh, Bool.false_eq_true, if_false]

theorem remove_ifaces_chain :
    ∀ (l : List (NodeId × NetPort)) (t : TopologyGraph), t.g.edgesWF →
      (l.map Prod.fst).Nodup →
      (∀ pi ∈ l, alGet t.g.nodes pi.1 =
        some ⟨some "INTERFACE", some (.iface pi.2)⟩) →
      ∃ t2, l.foldlM (fun tt pi => tt.remove_interface pi.1) t = some t2 ∧
        t2.g.edgesWF ∧
        (∀ m, m ∈ l.map Prod.fst → alGet t2.g.nodes m = none) ∧
        (∀ m, m ∉ l.map Prod.fst → alGet t2.g.nodes m = alGet t.g.nodes m) ∧
        (∀ a b, (a ∈ l.map Prod.fst ∨ b ∈ l.map Prod.fst) →
          t2.g.get_edge_data a b = none) ∧
        (∀ a b, a ∉ l.map Prod.fst → b ∉ l.map Prod.fst →
          t2.g.get_edge_data a b = t.g.get_edge_data a b) := by
  intro l
  induction l with
  | nil =>
    intro t hWF _ _
    exact ⟨t, rfl, hWF, by simp, fun m _ => rfl, by simp, fun a b _ _ => rfl⟩
  | cons pi rest ih =>
    intro t hWF hnd hmem
    simp only [List.map_cons, List.nodup_cons] at hnd
    have hself := hmem pi (List.mem_cons_self pi rest)
    obtain ⟨t1, hrn, hnodes1, hWF1, hged1⟩ := topo_remove_node_spec t pi.1
      "INTERFACE" ⟨some "INTERFACE", some (.iface pi.2)⟩ hWF hself rfl
    obtain ⟨t2, hfold, hWF2, hin2, hout2, hgedin2, hgedout2⟩ := ih t1 hWF1
      hnd.2 (by
        intro pj hj
        rw [hnodes1, alGet_alErase, if_neg (by
          intro hc
          apply hnd.1
          rw [← hc]
          exact List.mem_map.mpr ⟨pj, hj, rfl⟩)]
        exact hmem pj (List.mem_cons_of_mem _ hj))
    refine ⟨t2, ?_, hWF2, ?_, ?_, ?_, ?_⟩
    · rw [List.foldlM_cons]
      simp only [Option.bind_eq_bind,
        show t.remove_interface pi.1 = some t1 from hrn, Option.some_bind]
      exact hfold
    · intro m hm
      rcases List.mem_cons.mp hm with h2 | h2
      · by_cases hr : m ∈ rest.map Prod.fst
        · exact hin2 m hr
        · rw [hout2 m hr, hnodes1, h2, alGet_alErase, if_pos rfl]
      · exact hin2 m h2
    · intro m hm
      simp only [List.map_cons, List.mem_cons] at hm
      push_neg at hm
      rw [hout2 m hm.2, hnodes1, alGet_alErase, if_neg hm.1]
    · intro a b hab
      by_cases har : a ∈ rest.map Prod.fst
      · exact hgedin2 a b (Or.inl har)
      · by_cases hbr : b ∈ rest.map Prod.fst
        · exact hgedin2 a b (Or.inr hbr)
        · rw [hgedout2 a b har hbr, hged1 a b]
          have hab2 : a = pi.1 ∨ b = pi.1 := by
            rcases hab with h | h
            · rcases List.mem_cons.mp h with h2 | h2
              · exact Or.inl h2
              · exact absurd h2 har
            · rcases List.mem_cons.mp h with h2 | h2
              · exact Or.inr h2
              · exact absurd h2 hbr
          rw [if_pos hab2]
    · intro a b ha hb
      simp only [List.map_cons, List.mem_cons] at ha hb
      push_neg at ha hb
      rw [hgedout2 a b ha.2 hb.2, hged1 a b,
        if_neg (by
          intro hc
          rcases hc with hc | hc
          · exact ha.1 hc
          · exact hb.1 hc)]

/-- C6: on a topology whose node ids do not yet include host `h` or any
of `h`'s interfaces (and whose dict representation is well-formed, with
the host object carrying distinct interface ids that differ from the
host id), `add_host h` succeeds, the following `remove_host h` succeeds,
and the resulting graph contains no node and no edge referring to `h`
or to any of `h`'s interfaces: the removal cascades over the
INTERNAL_LINK edges and removes every edge incident to the host vertex
or to any of its interface vertices. -/
theorem c6_remove_host_cascade (t : TopologyGraph) (host : Host)
    (hWF : t.g.edgesWF)
    (hfresh : t.g.hasNode (hostNodeId host) = false)
    (hifresh : ∀ pi ∈ interfacesIterator host, t.g.hasNode pi.1 = false)
    (hnodup : ((interfacesIterator host).map Prod.fst).Nodup)
    (hne : ∀ pi ∈ interfacesIterator host, pi.1 ≠ hostNodeId host) :
    ∃ t1 t2, t.add_host host = some t1 ∧ t1.remove_host host = some t2 ∧
      t2.g.hasNode (hostNodeId host) = false ∧
      (∀ pi ∈ interfacesIterator host, t2.g.hasNode pi.1 = false) ∧
      (∀ a b, (a = hostNodeId host ∨ b = hostNodeId host ∨
          a ∈ (interfacesIterator host).map Prod.fst ∨
          b ∈ (interfacesIterator host).map Prod.fst) →
        t2.g.has_edge a b = false) := by
  obtain ⟨t1, hadd, hWF1, hhid1, hifs1⟩ :=
    add_host_spec t host hWF hfresh hnodup hne
  have hgetattrs : t1.getAttrs (hostNodeId host) "host" =
      some ⟨some "host", some (.host host)⟩ := by
    unfold TopologyGraph.getAttrs
    rw [hhid1]
    simp only [Option.bind_eq_bind, Option.some_bind]
    rfl
  have hhas1 : t1.g.hasNode (hostNodeId host) = true := by
    unfold PGraph.hasNode
    rw [hhid1]
    rfl
  have hhashost : t1.has_host host = some true := by
    simp only [TopologyGraph.has_host]
    rw [if_pos hhas1, hgetattrs]
    rfl
  have hgethost : t1.get_host host = some host := by
    unfold TopologyGraph.get_host
    rw [hgetattrs]
    simp only [Option.bind_eq_bind, Option.some_bind]
  obtain ⟨t2c, hchain, hWF2c, hin2, hout2, hgedin2, hgedout2⟩ :=
    remove_ifaces_chain (interfacesIterator host) t1 hWF1 hnodup hifs1
  have hhid2 : alGet t2c.g.nodes (hostNodeId host) =
      some ⟨some "host", some (.host host)⟩ := by
    rw [hout2 (hostNodeId host) (by
      intro hc
      obtain ⟨pj, hj, hjeq⟩ := List.mem_map.mp hc
      exact hne pj hj hjeq), hhid1]
  obtain ⟨tf, hrnf, hnodesf, hWFf, hgedf⟩ := topo_remove_node_spec t2c
    (hostNodeId host) "host" ⟨some "host", some (.host host)⟩ hWF2c hhid2 rfl
  refine ⟨t1, tf, hadd, ?_, ?_, ?_, ?_⟩
  · unfold TopologyGraph.remove_host
    rw [hhashost]
    simp only [Option.bind_eq_bind, Option.some_bind]
    rw [if_pos trivial, hgethost]
    simp only [Option.some_bind]
    rw [hchain]
    simp only [Option.some_bind]
    exact hrnf
  · unfold PGraph.hasNode
    rw [hnodesf, alGet_alErase, if_pos rfl]
    rfl
  · intro pi hpi
    unfold PGraph.hasNode
    rw [hnodesf, alGet_alErase, if_neg (hne pi hpi),
      hin2 pi.1 (List.mem_map.mpr ⟨pi, hpi, rfl⟩)]
    rfl
  · intro a b hab
    unfold PGraph.has_edge
    rcases hab with h | h | h | h
    · rw [hgedf a b, if_pos (Or.inl h)]
      rfl
    · rw [hgedf a b, if_pos (Or.inr h)]
      rfl
    · by_cases hbh : b = hostNodeId host
      · rw [hgedf a b, if_pos (Or.inr hbh)]
        rfl
      · have hah : ¬ a = hostNodeId host := by
          intro hc
          obtain ⟨pj, hj, hjeq⟩ := List.mem_map.mp h
          exact hne pj hj (hjeq.trans hc)
        rw [hgedf a b, if_neg (by
            intro hc
            rcases hc with hc | hc
            · exact hah hc
            · exact hbh hc), hgedin2 a b (Or.inl h)]
        rfl
    · by_cases hbh : b = hostNodeId host
      · rw [hgedf a b, if_pos (Or.inr hbh)]
        rfl
      · by_cases hah : a = hostNodeId host
        · rw [hgedf a b, if_pos (Or.inl hah)]
          rfl
        · rw [hgedf a b, if_neg (by
              intro hc
              rcases hc with hc | hc
              · exact hah hc
              · exact hbh hc), hgedin2 a b (Or.inr h)]
          rfl

/-- Witness for C6: the empty topology and a host `h1` with one
interface `h1-eth0`. -/
theorem c6_remove_host_cascade_witness :
    (⟨⟨[], []⟩⟩ : TopologyGraph).g.edgesWF ∧
    ((⟨⟨[], []⟩⟩ : TopologyGraph).g.hasNode
      (hostNodeId ⟨"h1", [⟨"h1-eth0", 0⟩]⟩) = false) ∧
    (∃ t1 t2,
      (⟨⟨[], []⟩⟩ : TopologyGraph).add_host ⟨"h1", [⟨"h1-eth0", 0⟩]⟩ =
        some t1 ∧
      t1.remove_host ⟨"h1", [⟨"h1-eth0", 0⟩]⟩ = some t2 ∧
      t2.g.hasNode (hostNodeId ⟨"h1", [⟨"h1-eth0", 0⟩]⟩) = false ∧
      (∀ pi ∈ interfacesIterator ⟨"h1", [⟨"h1-eth0", 0⟩]⟩,
        t2.g.hasNode pi.1 = false) ∧
      (∀ a b, (a = hostNodeId ⟨"h1", [⟨"h1-eth0", 0⟩]⟩ ∨
          b = hostNodeId ⟨"h1", [⟨"h1-eth0", 0⟩]⟩ ∨
          a ∈ (interfacesIterator ⟨"h1", [⟨"h1-eth0", 0⟩]⟩).map Prod.fst ∨
          b ∈ (interfacesIterator ⟨"h1", [⟨"h1-eth0", 0⟩]⟩).map Prod.fst) →
        t2.g.has_edge a b = false)) :=
  ⟨⟨List.nodup_nil, fun p hp => absurd hp (List.not_mem_nil p)⟩, rfl,
    c6_remove_host_cascade ⟨⟨[], []⟩⟩ ⟨"h1", [⟨"h1-eth0", 0⟩]⟩
      ⟨List.nodup_nil, fun p hp => absurd hp (List.not_mem_nil p)⟩ rfl
      (fun pi _ => rfl) (by decide) (by decide)⟩
